import Mathlib

/-!
Verification of the Engagement and Fan-out Engine of a community Q&A platform.

The definitions below are a shallow embedding of `server/models/application.ts`
(question ranking, question voting, poll voting and expiry, challenge progress,
notification fan-out).  The document store is modelled as explicit lists of
records threaded through each operation; timestamps are integers (milliseconds);
JavaScript truthiness of optional fields is modelled with `Option`.
-/

deriving instance DecidableEq for Except

namespace App

/-- Model of `findOneAndUpdate`: replace the first element satisfying `p` by its
image under `f`, leaving everything else untouched.  No match means no change. -/
def replaceFirst (p : α → Bool) (f : α → α) : List α → List α
  | [] => []
  | x :: xs => if p x then f x :: xs else x :: replaceFirst p f xs

/-- Model of the Mongo `$addToSet` update on a list field: append the element at
the end when it is absent, otherwise leave the list unchanged. -/
def setAdd [BEq α] (l : List α) (a : α) : List α :=
  if l.contains a then l else l ++ [a]

/-- Insert `x` into the already sorted `acc` in front of the first element that
the comparator orders strictly after `x`.  This is the insertion step of the
stable sort performed by `Array.prototype.sort` in V8 (binary insertion /
TimSort): an element moves before `y` only when `c x y < 0`. -/
def binIns (c : α → α → Int) (x : α) : List α → List α
  | [] => [x]
  | y :: ys => if c x y < 0 then x :: y :: ys else y :: binIns c x ys

/-- Model of JavaScript `Array.prototype.sort(c)` (order of the resulting
array; the in-place mutation is modelled separately at each call site). -/
def jsSort (c : α → α → Int) (l : List α) : List α :=
  l.foldl (fun acc x => binIns c x acc) []

theorem binIns_perm (c : α → α → Int) (x : α) (l : List α) :
    List.Perm (binIns c x l) (x :: l) := by
  induction l with
  | nil => simp [binIns]
  | cons y ys ih =>
    by_cases h : c x y < 0
    · simp [binIns, h]
    · simp only [binIns, if_neg h]
      exact ((ih.cons y).trans (List.Perm.swap x y ys))

theorem mem_binIns (c : α → α → Int) (x a : α) (l : List α) :
    a ∈ binIns c x l ↔ a = x ∨ a ∈ l := by
  rw [(binIns_perm c x l).mem_iff, List.mem_cons]

theorem jsSort_aux_perm (c : α → α → Int) (l acc : List α) :
    List.Perm (l.foldl (fun acc x => binIns c x acc) acc) (acc ++ l) := by
  induction l generalizing acc with
  | nil => simp
  | cons x xs ih =>
    refine ((ih (binIns c x acc)).trans ?_)
    exact ((binIns_perm c x acc).append_right xs).trans List.perm_middle.symm

theorem jsSort_perm (c : α → α → Int) (l : List α) : List.Perm (jsSort c l) l := by
  simpa using jsSort_aux_perm c l []

/-- Every pair of a list is related when the relation holds universally. -/
theorem pairwise_of_forall {R : α → α → Prop} (h : ∀ a b, R a b) :
    ∀ l : List α, l.Pairwise R
  | [] => List.Pairwise.nil
  | x :: xs => List.Pairwise.cons (fun b _ => h x b) (pairwise_of_forall h xs)

/-- Membership-aware monotonicity of `List.Pairwise`. -/
theorem pairwise_imp_mem {R S : α → α → Prop} {l : List α}
    (h : ∀ a b, a ∈ l → b ∈ l → R a b → S a b) (hp : l.Pairwise R) :
    l.Pairwise S := by
  induction l with
  | nil => exact List.Pairwise.nil
  | cons x xs ih =>
    rcases List.pairwise_cons.1 hp with ⟨hx, hxs⟩
    refine List.pairwise_cons.2 ⟨fun b hb => ?_, ?_⟩
    · exact h x b (List.mem_cons_self x xs) (List.mem_cons_of_mem x hb) (hx b hb)
    · exact ih (fun a b ha hb => h a b (List.mem_cons_of_mem x ha) (List.mem_cons_of_mem x hb)) hxs

theorem binIns_pairwise {c : α → α → Int} {R : α → α → Prop} {x : α} {acc : List α}
    (htrans : ∀ a b d, R a b → R b d → R a d)
    (hlt : ∀ z ∈ acc, c x z < 0 → R x z)
    (hge : ∀ z ∈ acc, ¬ c x z < 0 → R z x)
    (hacc : acc.Pairwise R) : (binIns c x acc).Pairwise R := by
  induction acc with
  | nil => simp [binIns]
  | cons y ys ih =>
    rcases List.pairwise_cons.1 hacc with ⟨hy, hys⟩
    by_cases h : c x y < 0
    · simp only [binIns, if_pos h]
      refine List.pairwise_cons.2 ⟨?_, hacc⟩
      intro b hb
      rcases List.mem_cons.1 hb with rfl | hb
      · exact hlt b (List.mem_cons_self _ _) h
      · exact htrans x y b (hlt y (List.mem_cons_self _ _) h) (hy b hb)
    · simp only [binIns, if_neg h]
      refine List.pairwise_cons.2 ⟨?_, ?_⟩
      · intro b hb
        rcases (mem_binIns c x b ys).1 hb with rfl | hb
        · exact hge y (List.mem_cons_self _ _) h
        · exact hy b hb
      · exact ih (fun z hz => hlt z (List.mem_cons_of_mem _ hz))
          (fun z hz => hge z (List.mem_cons_of_mem _ hz)) hys

theorem jsSort_aux_pairwise {c : α → α → Int} {R : α → α → Prop}
    (htrans : ∀ a b d, R a b → R b d → R a d) :
    ∀ (l acc : List α),
    (∀ x ∈ l, ∀ z, z ∈ acc ∨ z ∈ l → c x z < 0 → R x z) →
    (∀ z ∈ acc, ∀ x ∈ l, ¬ c x z < 0 → R z x) →
    l.Pairwise (fun z x => ¬ c x z < 0 → R z x) →
    acc.Pairwise R →
    (l.foldl (fun acc x => binIns c x acc) acc).Pairwise R
  | [], acc, _, _, _, hacc => hacc
  | x :: xs, acc, hlt, hcross, hord, hacc => by
    rcases List.pairwise_cons.1 hord with ⟨hx, hxs⟩
    have hacc2 : (binIns c x acc).Pairwise R :=
      binIns_pairwise htrans
        (fun z hz hc => hlt x (List.mem_cons_self _ _) z (Or.inl hz) hc)
        (fun z hz hc => hcross z hz x (List.mem_cons_self _ _) hc) hacc
    refine jsSort_aux_pairwise htrans xs (binIns c x acc)
      (fun y hy z hz hc => ?_) (fun z hz y hy hc => ?_) hxs hacc2
    · refine hlt y (List.mem_cons_of_mem _ hy) z ?_ hc
      rcases hz with hz | hz
      · rcases (mem_binIns c x z acc).1 hz with rfl | hz
        · exact Or.inr (List.mem_cons_self _ _)
        · exact Or.inl hz
      · exact Or.inr (List.mem_cons_of_mem _ hz)
    · rcases (mem_binIns c x z acc).1 hz with rfl | hz
      · exact hx y hy hc
      · exact hcross z hz y (List.mem_cons_of_mem _ hy) hc

/-- Sortedness of the JavaScript sort model: if the comparator implies relation
`R` in its strict direction, and the input is pairwise such that the non-strict
direction also yields `R` towards earlier elements, the output is pairwise `R`. -/
theorem jsSort_pairwise {c : α → α → Int} {R : α → α → Prop} {l : List α}
    (htrans : ∀ a b d, R a b → R b d → R a d)
    (hlt : ∀ x ∈ l, ∀ z ∈ l, c x z < 0 → R x z)
    (hord : l.Pairwise (fun z x => ¬ c x z < 0 → R z x)) :
    (jsSort c l).Pairwise R := by
  refine jsSort_aux_pairwise htrans l [] ?_ ?_ hord List.Pairwise.nil
  · intro x hx z hz hc
    rcases hz with hz | hz
    · cases hz
    · exact hlt x hx z hz hc
  · intro z hz
    cases hz

/-! ## Data model: questions and answers (fields used by the verified code) -/

/-- An answer document; `ansDateTime` is a timestamp in milliseconds. -/
structure Answer where
  _id : String
  ansBy : String
  ansDateTime : Int
deriving DecidableEq, Repr

/-- A question document with the fields read by ranking, voting and the
notification resolvers. `answers` models the populated answer references. -/
structure Question where
  _id : String
  askedBy : String
  askDateTime : Int
  answers : List Answer
  views : List String
  upVotes : List String
  downVotes : List String
  subscribers : List String
deriving DecidableEq, Repr

/-! ## Ranking (`sortQuestionsBy...` in application.ts) -/

/-- Comparator of `sortQuestionsByNewest`: descending by `askDateTime`. -/
def cmpNewest (a b : Question) : Int :=
  if a.askDateTime > b.askDateTime then -1
  else if a.askDateTime < b.askDateTime then 1
  else 0

/-- `sortQuestionsByNewest` (the order it produces; the sort happens in place). -/
def sortQuestionsByNewest (qlist : List Question) : List Question :=
  jsSort cmpNewest qlist

/-- `sortQuestionsByUnanswered`: newest-first, then keep `answers.length === 0`. -/
def sortQuestionsByUnanswered (qlist : List Question) : List Question :=
  (sortQuestionsByNewest qlist).filter (fun q => q.answers.length == 0)

/-- One step of the most-recent-answer-time accumulation: `!current`, or a
strictly later answer time, overwrites the entry. -/
def maxUpd (acc : Option Int) (d : Int) : Option Int :=
  match acc with
  | none => some d
  | some m => if m < d then some d else some m

/-- Lookup in the `Map<string, Date>` model (association list). -/
def mpGet (k : String) (mp : List (String × Int)) : Option Int :=
  (mp.find? (fun p => p.1 == k)).map (fun p => p.2)

/-- `Map.set` model: overwrite the entry for `k` in place, or append it. -/
def mpSet (k : String) (d : Int) : List (String × Int) → List (String × Int)
  | [] => [(k, d)]
  | (k1, d1) :: t => if k1 == k then (k, d) :: t else (k1, d1) :: mpSet k d t

/-- `getMostRecentAnswerTime`: record in `mp` the latest `ansDateTime` of the
answers of `question` (keyed by the question id). -/
def getMostRecentAnswerTime (question : Question) (mp : List (String × Int)) :
    List (String × Int) :=
  question.answers.foldl
    (fun mp a =>
      match mpGet question._id mp with
      | none => mpSet question._id a.ansDateTime mp
      | some m => if m < a.ansDateTime then mpSet question._id a.ansDateTime mp else mp)
    mp

/-- The map built by `sortQuestionsByActive` before sorting. -/
def buildActiveMap (qlist : List Question) : List (String × Int) :=
  qlist.foldl (fun mp q => getMostRecentAnswerTime q mp) []

/-- Comparator of the second sort of `sortQuestionsByActive`. -/
def cmpActive (mp : List (String × Int)) (a b : Question) : Int :=
  match mpGet a._id mp, mpGet b._id mp with
  | none, _ => 1
  | some _, none => -1
  | some x, some y => if x > y then -1 else if x < y then 1 else 0

/-- `sortQuestionsByActive`: sort newest-first, then re-sort by the most recent
answer time recorded in the map (both sorts act in place on the same array). -/
def sortQuestionsByActive (qlist : List Question) : List Question :=
  jsSort (cmpActive (buildActiveMap qlist)) (sortQuestionsByNewest qlist)

/-- Comparator of `sortQuestionsByMostViews`: `b.views.length - a.views.length`. -/
def cmpViews (a b : Question) : Int :=
  (b.views.length : Int) - (a.views.length : Int)

/-- `sortQuestionsByMostViews`: newest-first then by view count descending. -/
def sortQuestionsByMostViews (qlist : List Question) : List Question :=
  jsSort cmpViews (sortQuestionsByNewest qlist)

/-- The four feed orders of `getQuestionsByOrder`. -/
inductive OrderType where
  | newest
  | active
  | unanswered
  | mostViewed
deriving DecidableEq, Repr

/-- Effect of ranking on the caller: `Array.prototype.sort` sorts the input
array in place, so each branch yields the state of the input array after the
call (first component) and the returned list (second component). -/
def rankEffect (order : OrderType) (qlist : List Question) :
    List Question × List Question :=
  match order with
  | .newest => (sortQuestionsByNewest qlist, sortQuestionsByNewest qlist)
  | .active => (sortQuestionsByActive qlist, sortQuestionsByActive qlist)
  | .unanswered => (sortQuestionsByNewest qlist, sortQuestionsByUnanswered qlist)
  | .mostViewed => (sortQuestionsByMostViews qlist, sortQuestionsByMostViews qlist)

/-- The latest answer time of a single question, `none` when it has no answers
(same accumulation as `getMostRecentAnswerTime`, restricted to one question). -/
def latestAnsTime (q : Question) : Option Int :=
  q.answers.foldl (fun acc a => maxUpd acc a.ansDateTime) none

/-- The ordering the `active` ranking is claimed to produce: questions with
answers first (by latest answer time descending, ties by newest ask date),
then the answerless questions by newest ask date. -/
def activeLe (a b : Question) : Prop :=
  match latestAnsTime a, latestAnsTime b with
  | some x, some y => x > y ∨ (x = y ∧ b.askDateTime ≤ a.askDateTime)
  | some _, none => True
  | none, some _ => False
  | none, none => b.askDateTime ≤ a.askDateTime

theorem mpGet_mpSet_self (k : String) (d : Int) (mp : List (String × Int)) :
    mpGet k (mpSet k d mp) = some d := by
  induction mp with
  | nil => simp [mpGet, mpSet]
  | cons p t ih =>
    obtain ⟨k1, d1⟩ := p
    by_cases h : k1 = k
    · subst h
      simp [mpSet, mpGet]
    · simpa [mpSet, mpGet, List.find?, h] using ih

theorem beq_false_of_ne {a b : String} (h : a ≠ b) : (a == b) = false := by
  rw [beq_eq_false_iff_ne]
  exact h

theorem mpGet_mpSet_ne (k k2 : String) (hne : k ≠ k2) (d : Int)
    (mp : List (String × Int)) : mpGet k (mpSet k2 d mp) = mpGet k mp := by
  induction mp with
  | nil => simp [mpGet, mpSet, List.find?, beq_false_of_ne (Ne.symm hne)]
  | cons p t ih =>
    obtain ⟨k1, d1⟩ := p
    by_cases h : k1 = k2
    · subst h
      simp [mpSet, mpGet, List.find?, beq_false_of_ne (Ne.symm hne)]
    · by_cases h2 : k1 = k
      · subst h2
        simp [mpSet, mpGet, List.find?, beq_false_of_ne h]
      · simpa [mpSet, mpGet, List.find?, beq_false_of_ne h, beq_false_of_ne h2]
          using ih

/-- The accumulation step of `getMostRecentAnswerTime` updates the entry of the
question id exactly like `maxUpd`. -/
theorem mpGet_ansFold_self (qid : String) (ans : List Answer)
    (mp : List (String × Int)) :
    mpGet qid (ans.foldl
      (fun mp a =>
        match mpGet qid mp with
        | none => mpSet qid a.ansDateTime mp
        | some m => if m < a.ansDateTime then mpSet qid a.ansDateTime mp else mp)
      mp)
    = ans.foldl (fun acc a => maxUpd acc a.ansDateTime) (mpGet qid mp) := by
  induction ans generalizing mp with
  | nil => rfl
  | cons a t ih =>
    have hstep : mpGet qid
        (match mpGet qid mp with
         | none => mpSet qid a.ansDateTime mp
         | some m => if m < a.ansDateTime then mpSet qid a.ansDateTime mp else mp)
        = maxUpd (mpGet qid mp) a.ansDateTime := by
      cases h : mpGet qid mp with
      | none => simp [h, maxUpd, mpGet_mpSet_self]
      | some m =>
        by_cases hm : m < a.ansDateTime
        · simp [h, hm, maxUpd, mpGet_mpSet_self]
        · simp [h, hm, maxUpd]
    simp only [List.foldl_cons, ih, hstep]

theorem mpGet_ansFold_ne (qid k : String) (hne : k ≠ qid) (ans : List Answer)
    (mp : List (String × Int)) :
    mpGet k (ans.foldl
      (fun mp a =>
        match mpGet qid mp with
        | none => mpSet qid a.ansDateTime mp
        | some m => if m < a.ansDateTime then mpSet qid a.ansDateTime mp else mp)
      mp)
    = mpGet k mp := by
  induction ans generalizing mp with
  | nil => rfl
  | cons a t ih =>
    have hstep : mpGet k
        (match mpGet qid mp with
         | none => mpSet qid a.ansDateTime mp
         | some m => if m < a.ansDateTime then mpSet qid a.ansDateTime mp else mp)
        = mpGet k mp := by
      cases h : mpGet qid mp with
      | none => simp [mpGet_mpSet_ne k qid hne]
      | some m =>
        by_cases hm : m < a.ansDateTime
        · simp [hm, mpGet_mpSet_ne k qid hne]
        · simp [hm]
    simp only [List.foldl_cons, ih, hstep]

theorem mpGet_getMostRecent_self (q : Question) (mp : List (String × Int)) :
    mpGet q._id (getMostRecentAnswerTime q mp)
      = q.answers.foldl (fun acc a => maxUpd acc a.ansDateTime) (mpGet q._id mp) :=
  mpGet_ansFold_self q._id q.answers mp

theorem mpGet_getMostRecent_ne (q : Question) (k : String) (hne : k ≠ q._id)
    (mp : List (String × Int)) :
    mpGet k (getMostRecentAnswerTime q mp) = mpGet k mp :=
  mpGet_ansFold_ne q._id k hne q.answers mp

theorem mpGet_buildFold_ne (l : List Question) (mp : List (String × Int))
    (k : String) (hk : ∀ r ∈ l, r._id ≠ k) :
    mpGet k (l.foldl (fun mp q => getMostRecentAnswerTime q mp) mp) = mpGet k mp := by
  induction l generalizing mp with
  | nil => rfl
  | cons p t ih =>
    have h1 : mpGet k (getMostRecentAnswerTime p mp) = mpGet k mp :=
      mpGet_getMostRecent_ne p k (fun h => hk p (List.mem_cons_self _ _) h.symm) mp
    simp only [List.foldl_cons, ih _ (fun r hr => hk r (List.mem_cons_of_mem _ hr)), h1]

/-- With pairwise distinct question ids, the map built by
`sortQuestionsByActive` holds exactly each question's latest answer time. -/
theorem mpGet_buildActiveMap (l : List Question)
    (hnd : (l.map (fun q => q._id)).Nodup) (q : Question) (hq : q ∈ l) :
    mpGet q._id (buildActiveMap l) = latestAnsTime q := by
  have main : ∀ l2 : List Question, (l2.map (fun q => q._id)).Nodup →
      ∀ q2 ∈ l2, ∀ mp, mpGet q2._id mp = none →
      mpGet q2._id (l2.foldl (fun mp q => getMostRecentAnswerTime q mp) mp)
        = latestAnsTime q2 := by
    intro l2
    induction l2 with
    | nil =>
      intro _ q2 hq2
      cases hq2
    | cons p t ih =>
      intro hnd2 q2 hq2 mp hmp
      obtain ⟨hp, ht⟩ :
          (∀ x ∈ t, ¬ x._id = p._id) ∧ (t.map (fun q => q._id)).Nodup := by
        simpa using hnd2
      rcases List.mem_cons.1 hq2 with rfl | hq3
      · have h1 : mpGet q2._id (getMostRecentAnswerTime q2 mp) = latestAnsTime q2 := by
          rw [mpGet_getMostRecent_self, hmp]
          rfl
        simp only [List.foldl_cons]
        rw [mpGet_buildFold_ne t _ _ (fun r hr => hp r hr), h1]
      · have hpq : q2._id ≠ p._id := fun h => hp q2 hq3 h
        have h1 : mpGet q2._id (getMostRecentAnswerTime p mp) = none := by
          rw [mpGet_getMostRecent_ne p q2._id hpq, hmp]
        simp only [List.foldl_cons]
        exact ih ht q2 hq3 _ h1
  exact main l hnd q hq [] rfl

theorem foldl_maxUpd_some (ans : List Answer) (m : Int) :
    ∃ v, ans.foldl (fun acc a => maxUpd acc a.ansDateTime) (some m) = some v := by
  induction ans generalizing m with
  | nil => exact ⟨m, rfl⟩
  | cons a t ih =>
    simp only [List.foldl_cons, maxUpd]
    by_cases h : m < a.ansDateTime
    · simpa [h] using ih a.ansDateTime
    · simpa [h] using ih m

/-- A question has a latest answer time precisely when it has at least one
answer. -/
theorem latestAnsTime_eq_none_iff (q : Question) :
    latestAnsTime q = none ↔ q.answers = [] := by
  constructor
  · intro h
    cases hq : q.answers with
    | nil => rfl
    | cons a t =>
      exfalso
      rcases foldl_maxUpd_some t a.ansDateTime with ⟨v, hv⟩
      rw [latestAnsTime, hq, List.foldl_cons] at h
      have hinit : maxUpd none a.ansDateTime = some a.ansDateTime := rfl
      rw [hinit, hv] at h
      cases h
  · intro h
    rw [latestAnsTime, h]
    rfl

theorem activeLe_trans : ∀ a b d : Question,
    activeLe a b → activeLe b d → activeLe a d := by
  intro a b d hab hbd
  cases ha : latestAnsTime a <;> cases hb : latestAnsTime b <;>
    cases hd : latestAnsTime d <;>
    simp [activeLe, ha, hb, hd] at hab hbd ⊢ <;> omega

/-- C8: for a list of questions with pairwise distinct ids, the `active`
ranking returns a permutation of the input in which every question with at
least one answer precedes every answerless question, answered questions are
ordered by latest answer time descending, and all ties — including among the
answerless questions — are broken by newest `askDateTime` first (this is the
content of the `activeLe` relation). -/
theorem active_order_C8 (l : List Question)
    (hnd : (l.map (fun q => q._id)).Nodup) :
    List.Perm (sortQuestionsByActive l) l ∧
      (sortQuestionsByActive l).Pairwise activeLe := by
  have hperm1 : List.Perm (sortQuestionsByNewest l) l := jsSort_perm _ _
  constructor
  · exact (jsSort_perm _ _).trans hperm1
  · have hmp : ∀ q ∈ sortQuestionsByNewest l,
        mpGet q._id (buildActiveMap l) = latestAnsTime q := by
      intro q hq
      exact mpGet_buildActiveMap l hnd q (hperm1.mem_iff.1 hq)
    have hsorted1 : (sortQuestionsByNewest l).Pairwise
        (fun a b => b.askDateTime ≤ a.askDateTime) := by
      apply jsSort_pairwise
      · intro a b d hab hbd
        exact le_trans hbd hab
      · intro x _ z _ hc
        simp only [cmpNewest] at hc
        split_ifs at hc <;> omega
      · apply pairwise_of_forall
        intro a b hc
        by_contra hab
        apply hc
        simp only [cmpNewest]
        split_ifs <;> omega
    apply jsSort_pairwise activeLe_trans
    · intro x hx z hz hc
      have hx2 := hmp x hx
      have hz2 := hmp z hz
      simp only [cmpActive] at hc
      rw [hx2, hz2] at hc
      cases h1 : latestAnsTime x with
      | none =>
        rw [h1] at hc
        simp at hc
      | some xv =>
        cases h2 : latestAnsTime z with
        | none => simp [activeLe, h1, h2]
        | some zv =>
          rw [h1, h2] at hc
          simp only [activeLe, h1, h2]
          simp only at hc
          split_ifs at hc with h3 h4 <;> omega
    · refine pairwise_imp_mem ?_ hsorted1
      intro a b ha hb hle hc
      have ha2 := hmp a ha
      have hb2 := hmp b hb
      simp only [cmpActive] at hc
      rw [ha2, hb2] at hc
      cases h1 : latestAnsTime a with
      | none =>
        cases h2 : latestAnsTime b with
        | none => simpa [activeLe, h1, h2] using hle
        | some bv =>
          rw [h1, h2] at hc
          simp at hc
      | some av =>
        cases h2 : latestAnsTime b with
        | none => simp [activeLe, h1, h2]
        | some bv =>
          rw [h1, h2] at hc
          simp only [activeLe, h1, h2]
          simp only at hc
          split_ifs at hc with h3 h4
          · omega
          · exact Or.inl h4
          · exact Or.inr ⟨by omega, hle⟩

/-- Question fixtures for the ranking witnesses: two answered questions with
answer times 100 and 200, and a newer question with no answers. -/
def qT1 : Question :=
  { _id := "t1", askedBy := "u1", askDateTime := 10,
    answers := [{ _id := "a1", ansBy := "w", ansDateTime := 100 }],
    views := [], upVotes := [], downVotes := [], subscribers := [] }

def qT2 : Question :=
  { _id := "t2", askedBy := "u2", askDateTime := 20,
    answers := [{ _id := "a2", ansBy := "w", ansDateTime := 200 }],
    views := [], upVotes := [], downVotes := [], subscribers := [] }

def qT3 : Question :=
  { _id := "t3", askedBy := "u3", askDateTime := 30,
    answers := [], views := [], upVotes := [], downVotes := [], subscribers := [] }

/-- Witness for C8 at the three-question example of the specification. -/
theorem active_order_C8_witness :
    (([qT1, qT2, qT3].map (fun q => q._id)).Nodup) ∧
      (List.Perm (sortQuestionsByActive [qT1, qT2, qT3]) [qT1, qT2, qT3] ∧
        (sortQuestionsByActive [qT1, qT2, qT3]).Pairwise activeLe) :=
  ⟨by decide, active_order_C8 [qT1, qT2, qT3] (by decide)⟩

/-- C9 (amended): for every input list and every order, `rank` returns the
ordered sequence, but it sorts the input array in place rather than copying
it: after the call the input holds the same questions permuted into the sort
order (for `unanswered` the input is left newest-first and the returned list
is the filtered view of it), so the original input order is not preserved in
general. -/
theorem rank_in_place_C9 (l : List Question) :
    (List.Perm (rankEffect .newest l).1 l ∧
      (rankEffect .newest l).2 = (rankEffect .newest l).1) ∧
    (List.Perm (rankEffect .active l).1 l ∧
      (rankEffect .active l).2 = (rankEffect .active l).1) ∧
    (List.Perm (rankEffect .unanswered l).1 l ∧
      (rankEffect .unanswered l).2
        = ((rankEffect .unanswered l).1).filter (fun q => q.answers.length == 0)) ∧
    (List.Perm (rankEffect .mostViewed l).1 l ∧
      (rankEffect .mostViewed l).2 = (rankEffect .mostViewed l).1) := by
  refine ⟨⟨jsSort_perm _ _, rfl⟩, ⟨?_, rfl⟩, ⟨jsSort_perm _ _, rfl⟩, ⟨?_, rfl⟩⟩
  · exact (jsSort_perm _ _).trans (jsSort_perm _ _)
  · exact (jsSort_perm _ _).trans (jsSort_perm _ _)

/-- Two answerless questions, the older one first, used to exhibit the in-place
mutation performed by every ranking order. -/
def qOld : Question :=
  { _id := "old", askedBy := "u1", askDateTime := 1,
    answers := [], views := [], upVotes := [], downVotes := [], subscribers := [] }

def qNew : Question :=
  { _id := "new", askedBy := "u2", askDateTime := 2,
    answers := [], views := [], upVotes := [], downVotes := [], subscribers := [] }

/-- Counterexample to C9 as stated: ranking `[qOld, qNew]` under any of the
four orders leaves the input array reordered to `[qNew, qOld]`, so the input
does not hold the same questions in the same order after the call. -/
theorem rank_mutates_input_C9_cex :
    (rankEffect .newest [qOld, qNew]).1 ≠ [qOld, qNew] ∧
    (rankEffect .active [qOld, qNew]).1 ≠ [qOld, qNew] ∧
    (rankEffect .unanswered [qOld, qNew]).1 ≠ [qOld, qNew] ∧
    (rankEffect .mostViewed [qOld, qNew]).1 ≠ [qOld, qNew] := by
  decide

theorem find?_replaceFirst (p : α → Bool) (f : α → α)
    (hpres : ∀ x, p (f x) = p x) (l : List α) :
    List.find? p (replaceFirst p f l) = (List.find? p l).map f := by
  induction l with
  | nil => rfl
  | cons x xs ih =>
    by_cases h : p x
    · rw [replaceFirst, if_pos h,
        List.find?_cons_of_pos _ (by rw [hpres]; exact h),
        List.find?_cons_of_pos _ h]
      rfl
    · rw [replaceFirst, if_neg h, List.find?_cons_of_neg _ h,
        List.find?_cons_of_neg _ h, ih]

theorem mem_replaceFirst {p : α → Bool} {f : α → α} {l : List α} {a : α}
    (h : a ∈ replaceFirst p f l) : a ∈ l ∨ ∃ x ∈ l, a = f x := by
  induction l with
  | nil => cases h
  | cons x xs ih =>
    by_cases hp : p x
    · rw [replaceFirst, if_pos hp] at h
      rcases List.mem_cons.1 h with rfl | h2
      · exact Or.inr ⟨x, List.mem_cons_self _ _, rfl⟩
      · exact Or.inl (List.mem_cons_of_mem _ h2)
    · rw [replaceFirst, if_neg hp] at h
      rcases List.mem_cons.1 h with rfl | h2
      · exact Or.inl (List.mem_cons_self _ _)
      · rcases ih h2 with h3 | ⟨x2, hx2, h4⟩
        · exact Or.inl (List.mem_cons_of_mem _ h3)
        · exact Or.inr ⟨x2, List.mem_cons_of_mem _ hx2, h4⟩

/-! ## Question voting (`addVoteToQuestion`) -/

/-- The two vote kinds accepted by `addVoteToQuestion`. -/
inductive VoteType where
  | upvote
  | downvote
deriving DecidableEq, Repr

/-- The aggregation-pipeline update of `addVoteToQuestion`: both `$set`
expressions are evaluated against the original document, conditioning on
whether the voter is already in the same-direction array.  Present: remove
from that array and leave the other unchanged.  Absent: append to that array
and remove from the opposite one. -/
def applyQuestionVote (username : String) (t : VoteType) (q : Question) : Question :=
  match t with
  | .upvote =>
    if username ∈ q.upVotes then
      { q with upVotes := q.upVotes.filter (fun u => u != username) }
    else
      { q with upVotes := q.upVotes ++ [username],
               downVotes := q.downVotes.filter (fun u => u != username) }
  | .downvote =>
    if username ∈ q.downVotes then
      { q with downVotes := q.downVotes.filter (fun u => u != username) }
    else
      { q with downVotes := q.downVotes ++ [username],
               upVotes := q.upVotes.filter (fun u => u != username) }

/-- Successful return value of `addVoteToQuestion`. -/
structure VoteResult where
  msg : String
  upVotes : List String
  downVotes : List String
deriving DecidableEq, Repr

/-- `addVoteToQuestion`: one `findOneAndUpdate` applying the pipeline above,
followed by computing the message from the returned (updated) document. -/
def addVoteToQuestion (qid username : String) (t : VoteType)
    (store : List Question) : Except String VoteResult × List Question :=
  match store.find? (fun q => q._id == qid) with
  | none => (.error "Question not found!", store)
  | some _ =>
    let store2 := replaceFirst (fun q => q._id == qid) (applyQuestionVote username t) store
    match store2.find? (fun q => q._id == qid) with
    | none => (.error "Question not found!", store2)
    | some q2 =>
      let msg :=
        match t with
        | .upvote =>
          if username ∈ q2.upVotes then "Question upvoted successfully"
          else "Upvote cancelled successfully"
        | .downvote =>
          if username ∈ q2.downVotes then "Question downvoted successfully"
          else "Downvote cancelled successfully"
      (.ok { msg := msg, upVotes := q2.upVotes, downVotes := q2.downVotes }, store2)

theorem applyQuestionVote_id (username : String) (t : VoteType) (q : Question) :
    (applyQuestionVote username t q)._id = q._id := by
  cases t <;> simp only [applyQuestionVote] <;> split_ifs <;> rfl

theorem applyQuestionVote_doc_inv (username w : String) (t : VoteType)
    (q : Question) (h : ¬(w ∈ q.upVotes ∧ w ∈ q.downVotes)) :
    ¬(w ∈ (applyQuestionVote username t q).upVotes ∧
      w ∈ (applyQuestionVote username t q).downVotes) := by
  cases t <;> simp only [applyQuestionVote] <;> split_ifs with hc <;>
    rintro ⟨h1, h2⟩ <;> simp only [List.mem_filter, List.mem_append,
      List.mem_singleton, bne_iff_ne, ne_eq] at h1 h2
  · exact h ⟨h1.1, h2⟩
  · rcases h1 with h1 | rfl
    · exact h ⟨h1, h2.1⟩
    · exact h2.2 rfl
  · exact h ⟨h1, h2.1⟩
  · rcases h2 with h2 | rfl
    · exact h ⟨h1.1, h2⟩
    · exact h1.2 rfl

theorem notMem_filter_bne (username : String) (l : List String) :
    username ∉ l.filter (fun u => u != username) := by
  intro h
  rcases List.mem_filter.1 h with ⟨_, h2⟩
  simp at h2

theorem applyQuestionVote_up_mem (username : String) (q : Question)
    (h : username ∈ q.upVotes) :
    (applyQuestionVote username .upvote q).upVotes
        = q.upVotes.filter (fun u => u != username) ∧
      (applyQuestionVote username .upvote q).downVotes = q.downVotes := by
  simp [applyQuestionVote, h]

theorem applyQuestionVote_up_notMem (username : String) (q : Question)
    (h : username ∉ q.upVotes) :
    (applyQuestionVote username .upvote q).upVotes = q.upVotes ++ [username] ∧
      (applyQuestionVote username .upvote q).downVotes
        = q.downVotes.filter (fun u => u != username) := by
  simp [applyQuestionVote, h]

theorem applyQuestionVote_down_notMem (username : String) (q : Question)
    (h : username ∉ q.downVotes) :
    (applyQuestionVote username .downvote q).downVotes = q.downVotes ++ [username] ∧
      (applyQuestionVote username .downvote q).upVotes
        = q.upVotes.filter (fun u => u != username) := by
  simp [applyQuestionVote, h]

/-- C3: `addVoteToQuestion` preserves the invariant that every user is in at
most one of `upVotes`/`downVotes` (for any vote, on every question of the
store), and for a user not currently in either set: two successive upvotes
leave the user in neither array (toggle-off), while an upvote followed by a
downvote leaves the user in `downVotes` and not in `upVotes`. -/
theorem question_vote_C3 (qid username : String) (store : List Question)
    (q0 : Question)
    (hq0 : store.find? (fun q => q._id == qid) = some q0)
    (hu : username ∉ q0.upVotes) (hd : username ∉ q0.downVotes) :
    (∀ (qid2 u2 : String) (t : VoteType) (store2 : List Question),
      (∀ q ∈ store2, ∀ w, ¬(w ∈ q.upVotes ∧ w ∈ q.downVotes)) →
      ∀ q ∈ (addVoteToQuestion qid2 u2 t store2).2, ∀ w,
        ¬(w ∈ q.upVotes ∧ w ∈ q.downVotes)) ∧
    (∃ r : VoteResult,
      (addVoteToQuestion qid username .upvote
          (addVoteToQuestion qid username .upvote store).2).1 = .ok r ∧
        username ∉ r.upVotes ∧ username ∉ r.downVotes) ∧
    (∃ r : VoteResult,
      (addVoteToQuestion qid username .downvote
          (addVoteToQuestion qid username .upvote store).2).1 = .ok r ∧
        username ∈ r.downVotes ∧ username ∉ r.upVotes) := by
  have hpres : ∀ (t : VoteType) (u2 qid2 : String) (x : Question),
      ((applyQuestionVote u2 t x)._id == qid2) = (x._id == qid2) := by
    intro t u2 qid2 x
    rw [applyQuestionVote_id]
  refine ⟨?_, ?_, ?_⟩
  · intro qid2 u2 t store2 hinv q hq w
    rcases hf : store2.find? (fun q => q._id == qid2) with _ | qf
    · have : (addVoteToQuestion qid2 u2 t store2).2 = store2 := by
        simp only [addVoteToQuestion, hf]
      rw [this] at hq
      exact hinv q hq w
    · have hst : (addVoteToQuestion qid2 u2 t store2).2
          = replaceFirst (fun q => q._id == qid2) (applyQuestionVote u2 t) store2 := by
        rcases h2 : (replaceFirst (fun q => q._id == qid2)
            (applyQuestionVote u2 t) store2).find? (fun q => q._id == qid2) with _ | q2
        · simp only [addVoteToQuestion, hf, h2]
        · simp only [addVoteToQuestion, hf, h2]
      rw [hst] at hq
      rcases mem_replaceFirst hq with h3 | ⟨x, hx, rfl⟩
      · exact hinv q h3 w
      · exact applyQuestionVote_doc_inv u2 w t x (hinv x hx w)
  all_goals
    have hfind1 : (replaceFirst (fun q => q._id == qid)
        (applyQuestionVote username .upvote) store).find? (fun q => q._id == qid)
        = some (applyQuestionVote username .upvote q0) := by
      rw [find?_replaceFirst _ _ (hpres .upvote username qid), hq0]
      rfl
    have hs1 : (addVoteToQuestion qid username .upvote store).2
        = replaceFirst (fun q => q._id == qid)
            (applyQuestionVote username .upvote) store := by
      simp only [addVoteToQuestion, hq0, hfind1]
    obtain ⟨hq1up, hq1down⟩ := applyQuestionVote_up_notMem username q0 hu
    have hup1 : username ∈ (applyQuestionVote username .upvote q0).upVotes := by
      rw [hq1up]
      exact List.mem_append_right _ (List.mem_singleton_self _)
    have hdown1 : username ∉ (applyQuestionVote username .upvote q0).downVotes := by
      rw [hq1down]
      exact notMem_filter_bne username _
  · have hfind2 : (replaceFirst (fun q => q._id == qid)
        (applyQuestionVote username .upvote)
        (replaceFirst (fun q => q._id == qid)
          (applyQuestionVote username .upvote) store)).find? (fun q => q._id == qid)
        = some (applyQuestionVote username .upvote
            (applyQuestionVote username .upvote q0)) := by
      rw [find?_replaceFirst _ _ (hpres .upvote username qid), hfind1]
      rfl
    rw [hs1]
    simp only [addVoteToQuestion, hfind1, hfind2]
    obtain ⟨e1, e2⟩ :=
      applyQuestionVote_up_mem username (applyQuestionVote username .upvote q0) hup1
    refine ⟨_, rfl, ?_, ?_⟩
    · show username ∉ (applyQuestionVote username .upvote
        (applyQuestionVote username .upvote q0)).upVotes
      rw [e1]
      exact notMem_filter_bne username _
    · show username ∉ (applyQuestionVote username .upvote
        (applyQuestionVote username .upvote q0)).downVotes
      rw [e2]
      exact hdown1
  · have hfind2 : (replaceFirst (fun q => q._id == qid)
        (applyQuestionVote username .downvote)
        (replaceFirst (fun q => q._id == qid)
          (applyQuestionVote username .upvote) store)).find? (fun q => q._id == qid)
        = some (applyQuestionVote username .downvote
            (applyQuestionVote username .upvote q0)) := by
      rw [find?_replaceFirst _ _ (hpres .downvote username qid), hfind1]
      rfl
    rw [hs1]
    simp only [addVoteToQuestion, hfind1, hfind2]
    obtain ⟨e1, e2⟩ :=
      applyQuestionVote_down_notMem username (applyQuestionVote username .upvote q0) hdown1
    refine ⟨_, rfl, ?_, ?_⟩
    · show username ∈ (applyQuestionVote username .downvote
        (applyQuestionVote username .upvote q0)).downVotes
      rw [e1]
      exact List.mem_append_right _ (List.mem_singleton_self _)
    · show username ∉ (applyQuestionVote username .downvote
        (applyQuestionVote username .upvote q0)).upVotes
      rw [e2]
      exact notMem_filter_bne username _

/-- Question fixture for the voting witness. -/
def qVote : Question :=
  { _id := "q1", askedBy := "b", askDateTime := 0, answers := [],
    views := [], upVotes := [], downVotes := [], subscribers := [] }

/-- Witness for C3 on a one-question store with a fresh voter. -/
theorem question_vote_C3_witness :
    ([qVote].find? (fun q => q._id == "q1") = some qVote ∧
      "al" ∉ qVote.upVotes ∧ "al" ∉ qVote.downVotes) ∧
    ((∀ (qid2 u2 : String) (t : VoteType) (store2 : List Question),
      (∀ q ∈ store2, ∀ w, ¬(w ∈ q.upVotes ∧ w ∈ q.downVotes)) →
      ∀ q ∈ (addVoteToQuestion qid2 u2 t store2).2, ∀ w,
        ¬(w ∈ q.upVotes ∧ w ∈ q.downVotes)) ∧
    (∃ r : VoteResult,
      (addVoteToQuestion "q1" "al" .upvote
          (addVoteToQuestion "q1" "al" .upvote [qVote]).2).1 = .ok r ∧
        "al" ∉ r.upVotes ∧ "al" ∉ r.downVotes) ∧
    (∃ r : VoteResult,
      (addVoteToQuestion "q1" "al" .downvote
          (addVoteToQuestion "q1" "al" .upvote [qVote]).2).1 = .ok r ∧
        "al" ∈ r.downVotes ∧ "al" ∉ r.upVotes)) :=
  ⟨⟨by decide, by decide, by decide⟩,
    question_vote_C3 "q1" "al" [qVote] qVote (by decide) (by decide) (by decide)⟩

/-! ## Poll lifecycle (`addVoteToPollOption`, `closeExpiredPolls`) -/

/-- A poll option document. -/
structure PollOptionDoc where
  _id : String
  text : String
  usersVoted : List String
deriving DecidableEq, Repr

/-- A poll document.  `isClosed` is the STORED value of the flag: `none` models
a document in which the field is absent (the `Poll` schema does not declare
`isClosed`, so strict-mode persistence strips it); the application code reads
the field with JavaScript truthiness, under which a missing field is falsy. -/
structure PollDoc where
  _id : String
  options : List String
  createdBy : String
  pollDueDate : Int
  isClosed : Option Bool
deriving DecidableEq, Repr

/-- The poll-related collections of the document store. -/
structure PollState where
  polls : List PollDoc
  pollOptions : List PollOptionDoc
deriving DecidableEq, Repr

/-- `populate({path: options})`: resolve the option ids of a poll against the
`PollOption` collection; unresolved references are dropped. -/
def populateOptions (s : PollState) (p : PollDoc) : List PollOptionDoc :=
  p.options.filterMap (fun oid => s.pollOptions.find? (fun o => o._id == oid))

/-- Truthiness of `poll.isClosed`: only a stored `true` is truthy. -/
def pollIsClosedTruthy (p : PollDoc) : Bool :=
  p.isClosed == some true

/-- The `$addToSet` update of `addVoteToPollOption`: add the username, with
set semantics, to the first option document with the given id in the whole
`PollOption` collection. -/
def pollOptionsAfterVote (optionId username : String) (s : PollState) :
    List PollOptionDoc :=
  replaceFirst (fun o => o._id == optionId)
    (fun o => { o with usersVoted := setAdd o.usersVoted username })
    s.pollOptions

/-- `addVoteToPollOption(pollId, optionId, username)`.  Empty strings model the
falsy route parameters rejected by the input guard.  The already-voted check
spans every option of the poll; the `$addToSet` update targets the first
option document with the given id in the whole `PollOption` collection. -/
def addVoteToPollOption (pollId optionId username : String) (now : Int)
    (s : PollState) :
    Except String (PollDoc × List PollOptionDoc) × PollState :=
  if pollId == "" || optionId == "" || username == "" then
    (.error "Invalid input data", s)
  else
    match s.polls.find? (fun p => p._id == pollId) with
    | none => (.error "Poll not found", s)
    | some poll =>
      if pollIsClosedTruthy poll || poll.pollDueDate ≤ now then
        (.error "Unable to vote in closed poll", s)
      else if (populateOptions s poll).any (fun o => o.usersVoted.contains username) then
        (.error "User has already voted in this poll", s)
      else if (s.pollOptions.find? (fun o => o._id == optionId)).isSome then
        let s2 : PollState :=
          { s with pollOptions := pollOptionsAfterVote optionId username s }
        match s2.polls.find? (fun p => p._id == pollId) with
        | none => (.error "Error retrieving updated poll", s2)
        | some p2 => (.ok (p2, populateOptions s2 p2), s2)
      else (.error "Poll option not found", s)

/-- The fields declared by the `Poll` mongoose schema (`schema/poll.ts`). -/
def pollSchemaFields : List String :=
  ["title", "options", "createdBy", "pollDateTime", "pollDueDate"]

/-- Strict-mode `$set: {isClosed: true}` against the `Poll` schema: the path is
applied only when the schema declares it, otherwise it is stripped. -/
def strictSetIsClosedTrue (p : PollDoc) : PollDoc :=
  if pollSchemaFields.contains "isClosed" then { p with isClosed := some true } else p

/-- Strict-mode document creation: a requested `isClosed` value is persisted
only when the schema declares the field. -/
def strictCreatePoll (p : PollDoc) : PollDoc :=
  if pollSchemaFields.contains "isClosed" then p else { p with isClosed := none }

/-- MongoDB equality filter `{isClosed: false}`: matches a document only when
the stored value is `false`; a missing field does not match `false`. -/
def matchesIsClosedFalse (p : PollDoc) : Bool :=
  p.isClosed == some false

/-- `closeExpiredPolls()` with schema-faithful (strict) persistence: select
polls with `pollDueDate <= now` whose stored `isClosed` is `false`, write the
flag through the strict schema, and return the updated polls populated. -/
def closeExpiredPolls (now : Int) (s : PollState) :
    Except String (List (PollDoc × List PollOptionDoc)) × PollState :=
  let pollsToClose := s.polls.filter (fun p => p.pollDueDate ≤ now && matchesIsClosedFalse p)
  let newPolls := pollsToClose.foldl
    (fun ps p => replaceFirst (fun q => q._id == p._id) strictSetIsClosedTrue ps)
    s.polls
  let s2 : PollState := { s with polls := newPolls }
  let closed := pollsToClose.map
    (fun p => (newPolls.find? (fun q => q._id == p._id)).map
      (fun q => (q, populateOptions s2 q)))
  if closed.all Option.isSome then (.ok (closed.filterMap id), s2)
  else (.error "Poll not found", s2)

/-- The same sweep as the claim expects it, over a store whose schema declares
`isClosed`: the selected polls get `isClosed := some true` persisted. -/
def closeExpiredPollsIdeal (now : Int) (s : PollState) :
    Except String (List (PollDoc × List PollOptionDoc)) × PollState :=
  let pollsToClose := s.polls.filter (fun p => p.pollDueDate ≤ now && matchesIsClosedFalse p)
  let newPolls := pollsToClose.foldl
    (fun ps p => replaceFirst (fun q => q._id == p._id)
      (fun q => { q with isClosed := some true }) ps)
    s.polls
  let s2 : PollState := { s with polls := newPolls }
  let closed := pollsToClose.map
    (fun p => (newPolls.find? (fun q => q._id == p._id)).map
      (fun q => (q, populateOptions s2 q)))
  if closed.all Option.isSome then (.ok (closed.filterMap id), s2)
  else (.error "Poll not found", s2)

/-- C10: an empty (falsy) `pollId`, `optionId` or `username` makes
`addVoteToPollOption` return the error `Invalid input data` with the store
untouched, and the outcome does not depend on the store at all — the guard
runs before any store access. -/
theorem vote_guard_C10 (pollId optionId username : String) (now : Int)
    (s : PollState) (h : pollId = "" ∨ optionId = "" ∨ username = "") :
    (addVoteToPollOption pollId optionId username now s).1
        = .error "Invalid input data" ∧
    (addVoteToPollOption pollId optionId username now s).2 = s ∧
    (∀ s2 : PollState, (addVoteToPollOption pollId optionId username now s).1
        = (addVoteToPollOption pollId optionId username now s2).1) := by
  have hguard : (pollId == "" || optionId == "" || username == "") = true := by
    rcases h with rfl | rfl | rfl <;> simp
  refine ⟨?_, ?_, fun s2 => ?_⟩
  · simp only [addVoteToPollOption]
    rw [if_pos hguard]
  · simp only [addVoteToPollOption]
    rw [if_pos hguard]
  · simp only [addVoteToPollOption]
    rw [if_pos hguard, if_pos hguard]

/-- Witness for C10: an empty username with a nonempty store. -/
theorem vote_guard_C10_witness :
    (("p1" : String) = "" ∨ ("o1" : String) = "" ∨ ("" : String) = "") ∧
    ((addVoteToPollOption "p1" "o1" "" 7
        { polls := [], pollOptions := [] }).1 = .error "Invalid input data" ∧
     (addVoteToPollOption "p1" "o1" "" 7
        { polls := [], pollOptions := [] }).2
          = { polls := [], pollOptions := [] } ∧
     (∀ s2 : PollState, (addVoteToPollOption "p1" "o1" "" 7
          { polls := [], pollOptions := [] }).1
        = (addVoteToPollOption "p1" "o1" "" 7 s2).1)) :=
  ⟨by decide,
    vote_guard_C10 "p1" "o1" "" 7 { polls := [], pollOptions := [] } (by decide)⟩

/-- An open poll with one option and no votes, due at time 100. -/
def pOpen : PollDoc :=
  { _id := "p1", options := ["o1"], createdBy := "u",
    pollDueDate := 100, isClosed := some false }

def oFree : PollOptionDoc := { _id := "o1", text := "x", usersVoted := [] }

def sPollCex : PollState := { polls := [pOpen], pollOptions := [oFree] }

/-- Counterexample to C4 as stated: with an existing open poll and option and
an empty username, `addVoteToPollOption` returns an error even though none of
the error conditions listed by the claim (poll or option missing, closed,
overdue, already voted anywhere in the poll) holds. -/
theorem poll_vote_C4_cex :
    (addVoteToPollOption "p1" "o1" "" 0 sPollCex).1 = .error "Invalid input data" ∧
    (sPollCex.polls.find? (fun p => p._id == "p1")).isSome = true ∧
    (sPollCex.pollOptions.find? (fun o => o._id == "o1")).isSome = true ∧
    pollIsClosedTruthy pOpen = false ∧
    (0 : Int) < pOpen.pollDueDate ∧
    (populateOptions sPollCex pOpen).any (fun o => o.usersVoted.contains "") = false := by
  decide

/-- Discriminator for a successful `Except` outcome. -/
def exSucceeds : Except ε α → Bool
  | .ok _ => true
  | .error _ => false

/-- C4 (amended): `addVoteToPollOption` succeeds exactly when all three inputs
are nonempty, the poll exists, its stored `isClosed` flag is not truthy, its
due date is strictly in the future, the username has voted in no option of
the poll, and the target option exists in the option collection; on success
the username is added to the target option with set semantics and the poll is
returned with all options repopulated. -/
theorem poll_vote_C4 (pollId optionId username : String) (now : Int)
    (s : PollState) :
    (exSucceeds (addVoteToPollOption pollId optionId username now s).1 = true ↔
      (pollId ≠ "" ∧ optionId ≠ "" ∧ username ≠ "" ∧
        ∃ poll, s.polls.find? (fun p => p._id == pollId) = some poll ∧
          pollIsClosedTruthy poll = false ∧ now < poll.pollDueDate ∧
          (populateOptions s poll).any (fun o => o.usersVoted.contains username)
            = false ∧
          (s.pollOptions.find? (fun o => o._id == optionId)).isSome = true)) ∧
    (∀ res s2, addVoteToPollOption pollId optionId username now s = (.ok res, s2) →
      s2.polls = s.polls ∧
      s2.pollOptions = replaceFirst (fun o => o._id == optionId)
        (fun o => { o with usersVoted := setAdd o.usersVoted username })
        s.pollOptions ∧
      ∃ p2, s.polls.find? (fun p => p._id == pollId) = some p2 ∧
        res = (p2, populateOptions s2 p2)) := by
  by_cases hg : (pollId == "" || optionId == "" || username == "") = true
  · have hred : addVoteToPollOption pollId optionId username now s
        = (.error "Invalid input data", s) := by
      simp only [addVoteToPollOption]
      rw [if_pos hg]
    refine ⟨iff_of_false (by rw [hred]; simp [exSucceeds]) ?_, ?_⟩
    · rintro ⟨h1, h2, h3, -⟩
      rcases (by simpa using hg : (pollId = "" ∨ optionId = "") ∨ username = "") with
        (h | h) | h
      · exact h1 h
      · exact h2 h
      · exact h3 h
    · intro res s2 hEq
      rw [hred] at hEq
      simp at hEq
  · rcases hf : s.polls.find? (fun p => p._id == pollId) with _ | poll
    · have hred : addVoteToPollOption pollId optionId username now s
          = (.error "Poll not found", s) := by
        simp only [addVoteToPollOption, hf]
        rw [if_neg hg]
      refine ⟨iff_of_false (by rw [hred]; simp [exSucceeds]) ?_, ?_⟩
      · rintro ⟨-, -, -, poll, hp, -⟩
        rw [hf] at hp
        cases hp
      · intro res s2 hEq
        rw [hred] at hEq
        simp at hEq
    · by_cases hc : (pollIsClosedTruthy poll || decide (poll.pollDueDate ≤ now)) = true
      · have hred : addVoteToPollOption pollId optionId username now s
            = (.error "Unable to vote in closed poll", s) := by
          simp only [addVoteToPollOption, hf]
          rw [if_neg hg, if_pos hc]
        refine ⟨iff_of_false (by rw [hred]; simp [exSucceeds]) ?_, ?_⟩
        · rintro ⟨-, -, -, poll2, hp2, hcl, hdue, -⟩
          rw [hf] at hp2
          cases hp2
          rcases (by simpa using hc :
              pollIsClosedTruthy poll = true ∨ poll.pollDueDate ≤ now) with h | h
          · rw [hcl] at h
            cases h
          · omega
        · intro res s2 hEq
          rw [hred] at hEq
          simp at hEq
      · by_cases hv : ((populateOptions s poll).any
            (fun o => o.usersVoted.contains username)) = true
        · have hred : addVoteToPollOption pollId optionId username now s
              = (.error "User has already voted in this poll", s) := by
            simp only [addVoteToPollOption, hf]
            rw [if_neg hg, if_neg hc, if_pos hv]
          refine ⟨iff_of_false (by rw [hred]; simp [exSucceeds]) ?_, ?_⟩
          · rintro ⟨-, -, -, poll2, hp2, -, -, hv2, -⟩
            rw [hf] at hp2
            cases hp2
            rw [hv2] at hv
            cases hv
          · intro res s2 hEq
            rw [hred] at hEq
            simp at hEq
        · by_cases hoS : (s.pollOptions.find? (fun o => o._id == optionId)).isSome
              = true
          · have hred : addVoteToPollOption pollId optionId username now s
                = (.ok (poll, populateOptions
                      { s with pollOptions := pollOptionsAfterVote optionId username s }
                      poll),
                    { s with pollOptions := pollOptionsAfterVote optionId username s }) := by
              simp only [addVoteToPollOption, hf]
              rw [if_neg hg, if_neg hc, if_neg hv, if_pos hoS]
            have hg3 : (¬pollId = "" ∧ ¬optionId = "") ∧ ¬username = "" := by
              simpa [not_or] using hg
            have hv2 : ((populateOptions s poll).any
                (fun o => o.usersVoted.contains username)) = false := by
              revert hv
              cases ((populateOptions s poll).any
                (fun o => o.usersVoted.contains username)) <;> simp
            have hc2 : pollIsClosedTruthy poll = false ∧ now < poll.pollDueDate := by
              have hc3 : ¬(pollIsClosedTruthy poll = true ∨ poll.pollDueDate ≤ now) := by
                simpa using hc
              refine ⟨?_, by omega⟩
              revert hc3
              cases pollIsClosedTruthy poll <;> simp
            refine ⟨iff_of_true (by rw [hred]; rfl)
              ⟨hg3.1.1, hg3.1.2, hg3.2, poll, hf, hc2.1, hc2.2, hv2, hoS⟩, ?_⟩
            intro res s2 hEq
            rw [hred] at hEq
            injection hEq with h1 h2
            injection h1 with h3
            subst h2
            subst h3
            exact ⟨rfl, rfl, poll, hf, rfl⟩
          · have hred : addVoteToPollOption pollId optionId username now s
                = (.error "Poll option not found", s) := by
              simp only [addVoteToPollOption, hf]
              rw [if_neg hg, if_neg hc, if_neg hv, if_neg hoS]
            refine ⟨iff_of_false (by rw [hred]; simp [exSucceeds]) ?_, ?_⟩
            · rintro ⟨-, -, -, poll2, hp2, -, -, -, h5⟩
              exact hoS h5
            · intro res s2 hEq
              rw [hred] at hEq
              simp at hEq

/-- Witness for C4 at a successful vote: nonempty inputs, open poll, fresh
voter. -/
theorem poll_vote_C4_witness :
    ((exSucceeds (addVoteToPollOption "p1" "o1" "al" 0 sPollCex).1 = true ↔
      (("p1" : String) ≠ "" ∧ ("o1" : String) ≠ "" ∧ ("al" : String) ≠ "" ∧
        ∃ poll, sPollCex.polls.find? (fun p => p._id == "p1") = some poll ∧
          pollIsClosedTruthy poll = false ∧ (0 : Int) < poll.pollDueDate ∧
          (populateOptions sPollCex poll).any
            (fun o => o.usersVoted.contains "al") = false ∧
          (sPollCex.pollOptions.find? (fun o => o._id == "o1")).isSome = true)) ∧
    (∀ res s2, addVoteToPollOption "p1" "o1" "al" 0 sPollCex = (.ok res, s2) →
      s2.polls = sPollCex.polls ∧
      s2.pollOptions = replaceFirst (fun o => o._id == "o1")
        (fun o => { o with usersVoted := setAdd o.usersVoted "al" })
        sPollCex.pollOptions ∧
      ∃ p2, sPollCex.polls.find? (fun p => p._id == "p1") = some p2 ∧
        res = (p2, populateOptions s2 p2))) ∧
    exSucceeds (addVoteToPollOption "p1" "o1" "al" 0 sPollCex).1 = true :=
  ⟨poll_vote_C4 "p1" "o1" "al" 0 sPollCex, by decide⟩

/-- A poll created by the application with `isClosed: false` and a due date in
the past, persisted through the strict `Poll` schema (which strips the
undeclared `isClosed` path). -/
def pStale : PollDoc :=
  strictCreatePoll
    { _id := "p9", options := [], createdBy := "u", pollDueDate := 10,
      isClosed := some false }

def sStale : PollState := { polls := [pStale], pollOptions := [] }

/-- The same poll as C5 expects it: stored with `isClosed = false` because the
schema declares the field. -/
def pIdeal : PollDoc :=
  { _id := "p9", options := [], createdBy := "u", pollDueDate := 10,
    isClosed := some false }

def sIdeal : PollState := { polls := [pIdeal], pollOptions := [] }

/-- C5 (code-bug exhibit): the `Poll` schema does not declare `isClosed`, so
the stored flag of a poll created with `isClosed: false` is absent; at time
100 the sweep selects nothing and changes nothing, although the poll is
overdue and was never closed.  With the field in the schema (ideal variant of
the same function body) the sweep would return exactly that poll, closed. -/
theorem poll_close_C5_bug :
    pollSchemaFields.contains "isClosed" = false ∧
    pStale.pollDueDate ≤ 100 ∧
    pStale.isClosed = none ∧
    closeExpiredPolls 100 sStale = (.ok [], sStale) ∧
    (closeExpiredPollsIdeal 100 sIdeal).1
      = .ok [({ pIdeal with isClosed := some true }, [])] ∧
    ((closeExpiredPollsIdeal 100 sIdeal).2).polls
      = [{ pIdeal with isClosed := some true }] := by
  decide

/-! ## Users, notifications, challenges -/

/-- The closed enumeration of notification kinds. -/
inductive NotificationType where
  | Answer
  | Comment
  | AnswerComment
  | Upvote
  | NewQuestion
  | NewPoll
  | PollClosed
  | NewArticle
  | ArticleUpdate
  | NewReward
deriving DecidableEq, Repr

/-- A notification payload as passed to the fan-out (no id yet). -/
structure Notification where
  notificationType : NotificationType
  isRead : Bool
deriving DecidableEq, Repr

/-- A persisted notification record; `_id` is assigned by the store. -/
structure SavedNotification where
  _id : Nat
  notificationType : NotificationType
  isRead : Bool
deriving DecidableEq, Repr

/-- A user document with the fields touched by fan-out and rewards.
`notifications` is the inbox (newest first, ids of saved notifications). -/
structure User where
  _id : String
  username : String
  notifications : List Nat
  blockedNotifications : List NotificationType
  unlockedTitles : List String
deriving DecidableEq, Repr

/-- A challenge definition; `hoursToComplete` is optional (absent = untimed). -/
structure Challenge where
  _id : Nat
  challengeType : String
  actionAmount : Nat
  reward : String
  hoursToComplete : Option Nat
deriving DecidableEq, Repr

/-- A per-user challenge record with the challenge embedded (populated) and
one timestamp per qualifying action. -/
structure UserChallenge where
  _id : Nat
  username : String
  challenge : Challenge
  progress : List Int
deriving DecidableEq, Repr

/-- The collections touched by the challenge tracker.  `nextUcId` models the
id generator of the UserChallenge collection. -/
structure ChallengeState where
  users : List User
  userChallenges : List UserChallenge
  challenges : List Challenge
  nextUcId : Nat
deriving DecidableEq, Repr

/-- The timed-challenge pruning step of
`fetchAndIncrementChallengesByUserAndType`: when `hoursToComplete` is truthy
(present and nonzero), drop progress entries strictly before
`now - hoursToComplete` hours; entries at or after the cutoff stay. -/
def pruneProgress (now : Int) (uc : UserChallenge) : UserChallenge :=
  match uc.challenge.hoursToComplete with
  | some h =>
    if h ≠ 0 then
      { uc with progress :=
          uc.progress.filter (fun p => now - (h : Int) * (1000 * 60 * 60) ≤ p) }
    else uc
  | none => uc

/-- `$addToSet: {unlockedTitles: reward}` on the first user with the given
username (a no-op when no user matches, mirroring the unchecked
`findOneAndUpdate`). -/
def addTitleToUser (uname reward : String) (users : List User) : List User :=
  replaceFirst (fun w => w.username == uname)
    (fun w => { w with unlockedTitles := setAdd w.unlockedTitles reward })
    users

/-- `distributeRewardsIfChallengeComplete`: for every user challenge whose
progress length equals the challenge target exactly, add the reward to that
user's unlocked titles. -/
def distributeRewardsIfChallengeComplete (ucs : List UserChallenge)
    (users : List User) : List User :=
  ucs.foldl
    (fun us uc =>
      if uc.progress.length = uc.challenge.actionAmount then
        addTitleToUser uc.username uc.challenge.reward us
      else us)
    users

/-- Replace the stored progress array of the first record with the given id. -/
def replaceUcProgress (id : Nat) (prog : List Int)
    (store : List UserChallenge) : List UserChallenge :=
  replaceFirst (fun uc => uc._id == id) (fun uc => { uc with progress := prog }) store

def findUc (id : Nat) (store : List UserChallenge) : Option UserChallenge :=
  store.find? (fun uc => uc._id == id)

/-- The UserChallenge records created for challenges of the matching type that
the user has no record for yet (empty progress, fresh sequential ids). -/
def bootstrapUserChallenges (username ctype : String) (s : ChallengeState) :
    List UserChallenge :=
  let ucs := s.userChallenges.filter (fun uc => uc.username == username)
  let matching := s.challenges.filter (fun c => c.challengeType == ctype)
  let toStart := matching.filter
    (fun c => !(ucs.any (fun uc => uc.challenge._id == c._id)))
  toStart.enum.map
    (fun p => { _id := s.nextUcId + p.1, username := username,
                challenge := p.2, progress := [] })

/-- The records that will be persisted: the selected (matching-type,
incomplete) records after pruning, plus the bootstrapped ones, each with the
new progress entry appended. -/
def userChallengesToUpdate (username ctype : String) (now : Int)
    (s : ChallengeState) : List UserChallenge :=
  let ucs := s.userChallenges.filter (fun uc => uc.username == username)
  let filtered := ucs.filter
    (fun uc => uc.challenge.challengeType == ctype
      && decide (uc.progress.length < uc.challenge.actionAmount))
  let pruned := filtered.map (pruneProgress now)
  (pruned ++ bootstrapUserChallenges username ctype s).map
    (fun uc => { uc with progress := uc.progress ++ [now] })

/-- `fetchAndIncrementChallengesByUserAndType(username, challengeType)`:
verify the user exists, select the incomplete matching records, prune timed
ones, bootstrap missing records, append the new entry, distribute rewards on
exact completion, then persist every updated progress array and return the
updated records. -/
def fetchAndIncrementChallengesByUserAndType (username ctype : String)
    (now : Int) (s : ChallengeState) :
    Except String (List UserChallenge) × ChallengeState :=
  match s.users.find? (fun w => w.username == username) with
  | none => (.error "User not found", s)
  | some _ =>
    let newUcs := bootstrapUserChallenges username ctype s
    let s1 : ChallengeState :=
      { s with userChallenges := s.userChallenges ++ newUcs,
               nextUcId := s.nextUcId + newUcs.length }
    let toUpdate := userChallengesToUpdate username ctype now s
    let users2 := distributeRewardsIfChallengeComplete toUpdate s1.users
    let store2 := toUpdate.foldl
      (fun st uc => replaceUcProgress uc._id uc.progress st) s1.userChallenges
    let s2 : ChallengeState := { s1 with users := users2, userChallenges := store2 }
    if toUpdate.all (fun uc => (findUc uc._id store2).isSome) then
      (.ok (toUpdate.map (fun uc =>
        match findUc uc._id store2 with
        | some d => d
        | none => uc)), s2)
    else
      (.error "Error while updating UserChallenges", s2)

theorem find?_eq_of_nodup_keys {κ : Type} [DecidableEq κ] (key : α → κ)
    (l : List α) (hnd : (l.map key).Nodup) (x : α) (hx : x ∈ l) :
    l.find? (fun y => key y == key x) = some x := by
  induction l with
  | nil => cases hx
  | cons a t ih =>
    obtain ⟨ha, ht⟩ : (∀ y ∈ t, ¬ key y = key a) ∧ (t.map key).Nodup := by
      simpa using hnd
    rcases List.mem_cons.1 hx with rfl | hx2
    · rw [List.find?_cons_of_pos _ (by simp)]
    · rw [List.find?_cons_of_neg, ih ht hx2]
      simp only [beq_iff_eq]
      exact fun h => ha x hx2 h.symm

theorem find?_append_some {p : α → Bool} {l1 l2 : List α} {x : α}
    (h : l1.find? p = some x) : (l1 ++ l2).find? p = some x := by
  induction l1 with
  | nil => cases h
  | cons a t ih =>
    by_cases hp : p a
    · rw [List.find?_cons_of_pos _ hp] at h
      rw [List.cons_append, List.find?_cons_of_pos _ hp]
      exact h
    · rw [List.find?_cons_of_neg _ hp] at h
      rw [List.cons_append, List.find?_cons_of_neg _ hp]
      exact ih h

theorem find?_append_of_none {p : α → Bool} {l1 l2 : List α}
    (h : l1.find? p = none) : (l1 ++ l2).find? p = l2.find? p := by
  induction l1 with
  | nil => rfl
  | cons a t ih =>
    by_cases hp : p a
    · rw [List.find?_cons_of_pos _ hp] at h
      cases h
    · rw [List.find?_cons_of_neg _ hp] at h
      rw [List.cons_append, List.find?_cons_of_neg _ hp]
      exact ih h

/-- `find?` is unaffected by replacing a first match of a predicate that is
disjoint from the searched one, as long as the update preserves the searched
predicate. -/
theorem find?_replaceFirst_other {p q : α → Bool} {f : α → α} (l : List α)
    (hdisj : ∀ x, p x = true → q x = false) (hq : ∀ x, q (f x) = q x) :
    List.find? q (replaceFirst p f l) = List.find? q l := by
  induction l with
  | nil => rfl
  | cons x t ih =>
    by_cases hpx : p x
    · rw [replaceFirst, if_pos hpx]
      have hqx : q x = false := hdisj x hpx
      have hqfx : q (f x) = false := by rw [hq]; exact hqx
      rw [List.find?_cons_of_neg _ (by simp [hqfx]),
        List.find?_cons_of_neg _ (by simp [hqx])]
    · rw [replaceFirst, if_neg hpx]
      by_cases hqx : q x
      · rw [List.find?_cons_of_pos _ hqx, List.find?_cons_of_pos _ hqx]
      · rw [List.find?_cons_of_neg _ hqx, List.find?_cons_of_neg _ hqx]
        exact ih

theorem findUc_replace_ne {i j : Nat} (hne : j ≠ i) (prog : List Int)
    (store : List UserChallenge) :
    findUc i (replaceUcProgress j prog store) = findUc i store := by
  refine find?_replaceFirst_other store (fun x hx => ?_) (fun x => rfl)
  have : x._id = j := by simpa using hx
  simp [this, hne]

theorem findUc_replace_self (i : Nat) (prog : List Int)
    (store : List UserChallenge) (d : UserChallenge)
    (hd : findUc i store = some d) :
    findUc i (replaceUcProgress i prog store) = some { d with progress := prog } := by
  have h := find?_replaceFirst (fun uc => uc._id == i)
    (fun uc => { uc with progress := prog }) (fun x => rfl) store
  rw [findUc] at hd ⊢
  rw [replaceUcProgress, h, hd]
  rfl

theorem findUc_foldReplace_notMem (ts : List UserChallenge)
    (st : List UserChallenge) (i : Nat) (hi : ∀ e ∈ ts, e._id ≠ i) :
    findUc i (ts.foldl (fun st uc => replaceUcProgress uc._id uc.progress st) st)
      = findUc i st := by
  induction ts generalizing st with
  | nil => rfl
  | cons e r ih =>
    rw [List.foldl_cons, ih _ (fun x hx => hi x (List.mem_cons_of_mem _ hx)),
      findUc_replace_ne (hi e (List.mem_cons_self _ _)) _ st]

theorem findUc_foldReplace_mem (ts : List UserChallenge)
    (st : List UserChallenge) (e : UserChallenge) (he : e ∈ ts)
    (hnd : (ts.map (fun x => x._id)).Nodup) (d : UserChallenge)
    (hd : findUc e._id st = some d) :
    findUc e._id (ts.foldl (fun st uc => replaceUcProgress uc._id uc.progress st) st)
      = some { d with progress := e.progress } := by
  obtain ⟨ts1, ts2, rfl⟩ := List.append_of_mem he
  have hnd2 := hnd
  rw [List.map_append, List.map_cons] at hnd2
  rcases List.nodup_append.1 hnd2 with ⟨h1, h2, h3⟩
  have hts1 : ∀ x ∈ ts1, x._id ≠ e._id := by
    intro x hx h
    exact h3 (h ▸ List.mem_map_of_mem _ hx) (List.mem_cons_self _ _)
  have hts2 : ∀ x ∈ ts2, x._id ≠ e._id := by
    intro x hx h
    rcases List.nodup_cons.1 h2 with ⟨he2, -⟩
    exact he2 (h ▸ List.mem_map_of_mem _ hx)
  rw [List.foldl_append, List.foldl_cons,
    findUc_foldReplace_notMem ts2 _ _ hts2]
  have hmid : findUc e._id
      (ts1.foldl (fun st uc => replaceUcProgress uc._id uc.progress st) st)
      = some d := by
    rw [findUc_foldReplace_notMem ts1 st _ hts1]
    exact hd
  exact findUc_replace_self e._id e.progress _ d hmid

theorem pruneProgress_fields (now : Int) (uc : UserChallenge) :
    (pruneProgress now uc)._id = uc._id ∧
      (pruneProgress now uc).username = uc.username ∧
      (pruneProgress now uc).challenge = uc.challenge := by
  unfold pruneProgress
  cases uc.challenge.hoursToComplete
  · exact ⟨rfl, rfl, rfl⟩
  · dsimp only
    split_ifs <;> exact ⟨rfl, rfl, rfl⟩

theorem pruneProgress_eta (now : Int) (uc : UserChallenge) :
    pruneProgress now uc = { uc with progress := (pruneProgress now uc).progress } := by
  unfold pruneProgress
  cases uc.challenge.hoursToComplete
  · rfl
  · dsimp only
    split_ifs <;> rfl

theorem mem_boots (username ctype : String) (s : ChallengeState)
    (b : UserChallenge) (hb : b ∈ bootstrapUserChallenges username ctype s) :
    s.nextUcId ≤ b._id ∧ b.username = username ∧ b.progress = [] := by
  unfold bootstrapUserChallenges at hb
  rcases List.mem_map.1 hb with ⟨p, -, rfl⟩
  exact ⟨Nat.le_add_right _ _, rfl, rfl⟩

theorem ids_nodup_of_enum (l : List Challenge) (f : Nat × Challenge → UserChallenge)
    (base : Nat) (hf : ∀ p, (f p)._id = base + p.1) :
    ((l.enum.map f).map (fun x => x._id)).Nodup := by
  rw [List.map_map]
  rw [show ((fun x : UserChallenge => x._id) ∘ f)
      = ((fun i => base + i) ∘ Prod.fst) from funext fun p => hf p]
  rw [← List.map_map]
  exact List.Nodup.map (fun a b hab => by omega) (List.nodup_enum_map_fst _)

theorem boots_ids_nodup (username ctype : String) (s : ChallengeState) :
    ((bootstrapUserChallenges username ctype s).map (fun x => x._id)).Nodup := by
  unfold bootstrapUserChallenges
  exact ids_nodup_of_enum _ _ s.nextUcId (fun p => rfl)

/-- Record update of the progress array only. -/
def withProgress (uc : UserChallenge) (prog : List Int) : UserChallenge :=
  { uc with progress := prog }

theorem withProgress_congr (a b : UserChallenge) (h1 : a._id = b._id)
    (h2 : a.username = b.username) (h3 : a.challenge = b.challenge)
    (p : List Int) : withProgress a p = withProgress b p := by
  simp [withProgress, h1, h2, h3]

theorem toUpdate_mem_of (username ctype : String) (now : Int) (s : ChallengeState)
    (uc : UserChallenge) (hmem : uc ∈ s.userChallenges)
    (hname : (uc.username == username) = true)
    (htype : (uc.challenge.challengeType == ctype) = true)
    (hlt : uc.progress.length < uc.challenge.actionAmount) :
    withProgress (pruneProgress now uc) ((pruneProgress now uc).progress ++ [now])
      ∈ userChallengesToUpdate username ctype now s := by
  unfold userChallengesToUpdate
  apply List.mem_map_of_mem
  apply List.mem_append_left
  apply List.mem_map_of_mem
  exact List.mem_filter.2 ⟨List.mem_filter.2 ⟨hmem, hname⟩, by simp [htype, hlt]⟩

theorem toUpdate_found (username ctype : String) (now : Int) (s : ChallengeState)
    (hnd : (s.userChallenges.map (fun x => x._id)).Nodup)
    (hfresh : ∀ d ∈ s.userChallenges, d._id < s.nextUcId)
    (e : UserChallenge) (he : e ∈ userChallengesToUpdate username ctype now s) :
    ∃ d, findUc e._id
        (s.userChallenges ++ bootstrapUserChallenges username ctype s) = some d ∧
      withProgress d e.progress = e := by
  unfold userChallengesToUpdate at he
  rcases List.mem_map.1 he with ⟨x, hx, rfl⟩
  rcases List.mem_append.1 hx with hx1 | hx2
  · rcases List.mem_map.1 hx1 with ⟨uc0, h0, rfl⟩
    have h0m : uc0 ∈ s.userChallenges :=
      (List.mem_filter.1 (List.mem_filter.1 h0).1).1
    obtain ⟨f1, f2, f3⟩ := pruneProgress_fields now uc0
    refine ⟨uc0, ?_, ?_⟩
    · show findUc (pruneProgress now uc0)._id _ = some uc0
      rw [f1, findUc]
      exact find?_append_some
        (find?_eq_of_nodup_keys (fun y => y._id) s.userChallenges hnd uc0 h0m)
    · exact (withProgress_congr (pruneProgress now uc0) uc0 f1 f2 f3 _).symm
  · rcases mem_boots username ctype s x hx2 with ⟨hge, -, -⟩
    refine ⟨x, ?_, rfl⟩
    show findUc x._id _ = some x
    rw [findUc, find?_append_of_none]
    · exact find?_eq_of_nodup_keys (fun y => y._id) _
        (boots_ids_nodup username ctype s) x hx2
    · rw [List.find?_eq_none]
      intro d hd
      have h5 := hfresh d hd
      simp only [beq_iff_eq]
      omega

theorem toUpdate_username (username ctype : String) (now : Int)
    (s : ChallengeState) (e : UserChallenge)
    (he : e ∈ userChallengesToUpdate username ctype now s) :
    e.username = username := by
  unfold userChallengesToUpdate at he
  rcases List.mem_map.1 he with ⟨x, hx, rfl⟩
  rcases List.mem_append.1 hx with hx1 | hx2
  · rcases List.mem_map.1 hx1 with ⟨uc0, h0, rfl⟩
    have hn : (uc0.username == username) = true :=
      (List.mem_filter.1 (List.mem_filter.1 h0).1).2
    have := (pruneProgress_fields now uc0).2.1
    show (pruneProgress now uc0).username = username
    rw [this]
    exact beq_iff_eq.1 hn
  · exact (mem_boots username ctype s x hx2).2.1

theorem toUpdate_ids_nodup (username ctype : String) (now : Int)
    (s : ChallengeState)
    (hnd : (s.userChallenges.map (fun x => x._id)).Nodup)
    (hfresh : ∀ d ∈ s.userChallenges, d._id < s.nextUcId) :
    ((userChallengesToUpdate username ctype now s).map (fun x => x._id)).Nodup := by
  unfold userChallengesToUpdate
  rw [List.map_map]
  rw [show ((fun x : UserChallenge => x._id)
      ∘ (fun uc => { uc with progress := uc.progress ++ [now] }))
      = (fun x : UserChallenge => x._id) from rfl]
  rw [List.map_append]
  refine List.nodup_append.2 ⟨?_, boots_ids_nodup username ctype s, ?_⟩
  · have hsub :
        (((s.userChallenges.filter (fun uc => uc.username == username)).filter
          (fun uc => uc.challenge.challengeType == ctype
            && decide (uc.progress.length < uc.challenge.actionAmount))).map
          (fun x => x._id)).Sublist (s.userChallenges.map (fun x => x._id)) :=
      ((List.filter_sublist _).trans (List.filter_sublist _)).map _
    have hcong :
        ((s.userChallenges.filter (fun uc => uc.username == username)).filter
          (fun uc => uc.challenge.challengeType == ctype
            && decide (uc.progress.length < uc.challenge.actionAmount))).map
          ((fun x : UserChallenge => x._id) ∘ pruneProgress now)
        = ((s.userChallenges.filter (fun uc => uc.username == username)).filter
          (fun uc => uc.challenge.challengeType == ctype
            && decide (uc.progress.length < uc.challenge.actionAmount))).map
          (fun x => x._id) :=
      List.map_congr_left (fun a _ => (pruneProgress_fields now a).1)
    rw [List.map_map, hcong]
    exact hnd.sublist hsub
  · intro a ha hb
    rw [List.map_map] at ha
    rcases List.mem_map.1 ha with ⟨uc0, h0, rfl⟩
    have h0m : uc0 ∈ s.userChallenges :=
      (List.mem_filter.1 (List.mem_filter.1 h0).1).1
    have hlt2 : ((fun x : UserChallenge => x._id) ∘ pruneProgress now) uc0
        < s.nextUcId := by
      show (pruneProgress now uc0)._id < s.nextUcId
      rw [(pruneProgress_fields now uc0).1]
      exact hfresh uc0 h0m
    rcases List.mem_map.1 hb with ⟨b, hb2, hbeq⟩
    have hge := (mem_boots username ctype s b hb2).1
    omega

/-- The UserChallenge collection after a successful increment run. -/
def incrementedStore (username ctype : String) (now : Int) (s : ChallengeState) :
    List UserChallenge :=
  (userChallengesToUpdate username ctype now s).foldl
    (fun st uc => replaceUcProgress uc._id uc.progress st)
    (s.userChallenges ++ bootstrapUserChallenges username ctype s)

theorem fetchAndIncrement_ucs (username ctype : String) (now : Int)
    (s : ChallengeState) (u : User)
    (hu : s.users.find? (fun w => w.username == username) = some u) :
    (fetchAndIncrementChallengesByUserAndType username ctype now s).2.userChallenges
      = incrementedStore username ctype now s := by
  simp only [fetchAndIncrementChallengesByUserAndType, hu]
  split_ifs <;> rfl

theorem fetchAndIncrement_users (username ctype : String) (now : Int)
    (s : ChallengeState) (u : User)
    (hu : s.users.find? (fun w => w.username == username) = some u) :
    (fetchAndIncrementChallengesByUserAndType username ctype now s).2.users
      = distributeRewardsIfChallengeComplete
          (userChallengesToUpdate username ctype now s) s.users := by
  simp only [fetchAndIncrementChallengesByUserAndType, hu]
  split_ifs <;> rfl

theorem fetchAndIncrement_ok (username ctype : String) (now : Int)
    (s : ChallengeState) (u : User)
    (hu : s.users.find? (fun w => w.username == username) = some u)
    (hnd : (s.userChallenges.map (fun x => x._id)).Nodup)
    (hfresh : ∀ d ∈ s.userChallenges, d._id < s.nextUcId) :
    (fetchAndIncrementChallengesByUserAndType username ctype now s).1
      = .ok (userChallengesToUpdate username ctype now s) := by
  have hlook : ∀ e ∈ userChallengesToUpdate username ctype now s,
      findUc e._id (incrementedStore username ctype now s) = some e := by
    intro e he
    obtain ⟨d, hd, hwp⟩ := toUpdate_found username ctype now s hnd hfresh e he
    have h2 := findUc_foldReplace_mem (userChallengesToUpdate username ctype now s)
      _ e he (toUpdate_ids_nodup username ctype now s hnd hfresh) d hd
    exact h2.trans (congrArg some hwp)
  simp only [fetchAndIncrementChallengesByUserAndType, hu]
  split_ifs with hsplit
  · show Except.ok _ = _
    refine congrArg Except.ok ?_
    have hmap : (userChallengesToUpdate username ctype now s).map
        (fun uc => match findUc uc._id (incrementedStore username ctype now s) with
          | some d => d
          | none => uc)
        = (userChallengesToUpdate username ctype now s).map (fun e => e) := by
      refine List.map_congr_left (fun e he => ?_)
      rw [hlook e he]
    exact hmap.trans (List.map_id' _)
  · exfalso
    apply hsplit
    rw [List.all_eq_true]
    intro e he
    have h3 := hlook e he
    unfold incrementedStore at h3
    rw [h3]
    rfl

/-- C6 (amended): for every matching, not-yet-complete user challenge selected
by the increment, the persisted progress is obtained by first pruning — for a
timed challenge with a positive `hoursToComplete`, keeping exactly the entries
at or after the single cutoff `now - hoursToComplete` hours computed at call
time — and then appending the new entry; challenges with `hoursToComplete`
absent, and likewise those with `hoursToComplete = 0` (the code tests the
field with JavaScript truthiness), are never pruned. -/
theorem challenge_prune_C6 (username ctype : String) (now : Int)
    (s : ChallengeState) (uc : UserChallenge) (u : User)
    (hu : s.users.find? (fun w => w.username == username) = some u)
    (hnd : (s.userChallenges.map (fun x => x._id)).Nodup)
    (hfresh : ∀ d ∈ s.userChallenges, d._id < s.nextUcId)
    (hmem : uc ∈ s.userChallenges) (hname : uc.username = username)
    (htype : uc.challenge.challengeType = ctype)
    (hlt : uc.progress.length < uc.challenge.actionAmount) :
    ∃ prog,
      findUc uc._id
        ((fetchAndIncrementChallengesByUserAndType username ctype now
          s).2.userChallenges)
        = some (withProgress uc prog) ∧
      (uc.challenge.hoursToComplete = none → prog = uc.progress ++ [now]) ∧
      (uc.challenge.hoursToComplete = some 0 → prog = uc.progress ++ [now]) ∧
      (∀ h, uc.challenge.hoursToComplete = some h → 0 < h →
        prog = uc.progress.filter
          (fun p => now - (h : Int) * (1000 * 60 * 60) ≤ p) ++ [now]) := by
  have hmemE := toUpdate_mem_of username ctype now s uc hmem
    (by simp [hname]) (by simp [htype]) hlt
  obtain ⟨f1, f2, f3⟩ := pruneProgress_fields now uc
  have hndT := toUpdate_ids_nodup username ctype now s hnd hfresh
  have hd : findUc
      (withProgress (pruneProgress now uc)
        ((pruneProgress now uc).progress ++ [now]))._id
      (s.userChallenges ++ bootstrapUserChallenges username ctype s)
      = some uc := by
    show findUc (pruneProgress now uc)._id _ = some uc
    rw [f1, findUc]
    exact find?_append_some
      (find?_eq_of_nodup_keys (fun y => y._id) s.userChallenges hnd uc hmem)
  have h2 := findUc_foldReplace_mem (userChallengesToUpdate username ctype now s)
    _ _ hmemE hndT uc hd
  refine ⟨(pruneProgress now uc).progress ++ [now], ?_, ?_, ?_, ?_⟩
  · rw [fetchAndIncrement_ucs username ctype now s u hu]
    have he_id : (withProgress (pruneProgress now uc)
        ((pruneProgress now uc).progress ++ [now]))._id = uc._id := f1
    rw [← he_id]
    exact h2
  · intro hnone
    simp [pruneProgress, hnone]
  · intro hzero
    simp [pruneProgress, hzero]
  · intro h hsome hpos
    simp [pruneProgress, hsome, (show h ≠ 0 by omega)]

/-- Fixtures for the challenge witnesses: a one-hour timed challenge with
target 5, a record with entries at 0, 30 and 90 minutes, incremented at
minute 100. -/
def chTimed : Challenge :=
  { _id := 1, challengeType := "upvote", actionAmount := 5, reward := "r",
    hoursToComplete := some 1 }

def ucTimed : UserChallenge :=
  { _id := 10, username := "u", challenge := chTimed,
    progress := [0, 1800000, 5400000] }

def uChal : User :=
  { _id := "u1", username := "u", notifications := [],
    blockedNotifications := [], unlockedTitles := [] }

def sChal : ChallengeState :=
  { users := [uChal], userChallenges := [ucTimed], challenges := [chTimed],
    nextUcId := 11 }

/-- Witness for C6 at the sliding-window example of the specification. -/
theorem challenge_prune_C6_witness :
    (sChal.users.find? (fun w => w.username == "u") = some uChal ∧
      (sChal.userChallenges.map (fun x => x._id)).Nodup ∧
      (∀ d ∈ sChal.userChallenges, d._id < sChal.nextUcId) ∧
      ucTimed ∈ sChal.userChallenges ∧ ucTimed.username = "u" ∧
      ucTimed.challenge.challengeType = "upvote" ∧
      ucTimed.progress.length < ucTimed.challenge.actionAmount) ∧
    (∃ prog,
      findUc ucTimed._id
        ((fetchAndIncrementChallengesByUserAndType "u" "upvote" 6000000
          sChal).2.userChallenges)
        = some (withProgress ucTimed prog) ∧
      (ucTimed.challenge.hoursToComplete = none → prog = ucTimed.progress ++ [6000000]) ∧
      (ucTimed.challenge.hoursToComplete = some 0 → prog = ucTimed.progress ++ [6000000]) ∧
      (∀ h, ucTimed.challenge.hoursToComplete = some h → 0 < h →
        prog = ucTimed.progress.filter
          (fun p => 6000000 - (h : Int) * (1000 * 60 * 60) ≤ p) ++ [6000000])) :=
  ⟨⟨by decide, by decide, by decide, by decide, rfl, rfl, by decide⟩,
    challenge_prune_C6 "u" "upvote" 6000000 sChal ucTimed uChal (by decide)
      (by decide) (by decide) (by decide) rfl rfl (by decide)⟩

theorem mem_setAdd [BEq α] [LawfulBEq α] (l : List α) (a x : α) :
    x ∈ setAdd l a ↔ x ∈ l ∨ x = a := by
  unfold setAdd
  split_ifs with h
  · constructor
    · exact Or.inl
    · rintro (hx | rfl)
      · exact hx
      · simpa using h
  · simp [List.mem_append]

theorem nodup_setAdd [BEq α] [LawfulBEq α] (l : List α) (a : α)
    (h : l.Nodup) : (setAdd l a).Nodup := by
  unfold setAdd
  split_ifs with hc
  · exact h
  · have ha : a ∉ l := by simpa using hc
    simp [List.nodup_append, h, ha]

/-- The unlocked-titles list produced by the reward distribution fold. -/
def titlesAfter (ucs : List UserChallenge) (T : List String) : List String :=
  ucs.foldl
    (fun t e => if e.progress.length = e.challenge.actionAmount
      then setAdd t e.challenge.reward else t)
    T

/-- Record update of the unlocked titles only. -/
def withTitles (u : User) (T : List String) : User :=
  { u with unlockedTitles := T }

theorem mem_titlesAfter : ∀ (ucs : List UserChallenge) (T : List String)
    (r : String),
    r ∈ titlesAfter ucs T ↔
      r ∈ T ∨ ∃ e ∈ ucs, e.progress.length = e.challenge.actionAmount ∧
        e.challenge.reward = r
  | [], T, r => by simp [titlesAfter]
  | e :: rest, T, r => by
    unfold titlesAfter
    rw [List.foldl_cons]
    by_cases hc : e.progress.length = e.challenge.actionAmount
    · rw [if_pos hc]
      have ih := mem_titlesAfter rest (setAdd T e.challenge.reward) r
      rw [show (rest.foldl
          (fun t e2 => if e2.progress.length = e2.challenge.actionAmount
            then setAdd t e2.challenge.reward else t)
          (setAdd T e.challenge.reward))
          = titlesAfter rest (setAdd T e.challenge.reward) from rfl, ih,
        mem_setAdd]
      simp only [List.mem_cons]
      constructor
      · rintro ((h | h) | ⟨e2, he2, h1, h2⟩)
        · exact Or.inl h
        · exact Or.inr ⟨e, Or.inl rfl, hc, h.symm⟩
        · exact Or.inr ⟨e2, Or.inr he2, h1, h2⟩
      · rintro (h | ⟨e2, he2 | he2, h1, h2⟩)
        · exact Or.inl (Or.inl h)
        · subst he2
          exact Or.inl (Or.inr h2.symm)
        · exact Or.inr ⟨e2, he2, h1, h2⟩
    · rw [if_neg hc]
      have ih := mem_titlesAfter rest T r
      rw [show (rest.foldl
          (fun t e2 => if e2.progress.length = e2.challenge.actionAmount
            then setAdd t e2.challenge.reward else t) T)
          = titlesAfter rest T from rfl, ih]
      simp only [List.mem_cons]
      constructor
      · rintro (h | ⟨e2, he2, h1, h2⟩)
        · exact Or.inl h
        · exact Or.inr ⟨e2, Or.inr he2, h1, h2⟩
      · rintro (h | ⟨e2, he2 | he2, h1, h2⟩)
        · exact Or.inl h
        · subst he2
          exact absurd h1 hc
        · exact Or.inr ⟨e2, he2, h1, h2⟩

theorem nodup_titlesAfter : ∀ (ucs : List UserChallenge) (T : List String),
    T.Nodup → (titlesAfter ucs T).Nodup
  | [], _, h => h
  | e :: rest, T, h => by
    unfold titlesAfter
    rw [List.foldl_cons]
    by_cases hc : e.progress.length = e.challenge.actionAmount
    · rw [if_pos hc]
      exact nodup_titlesAfter rest _ (nodup_setAdd _ _ h)
    · rw [if_neg hc]
      exact nodup_titlesAfter rest T h

theorem find?_addTitleToUser (uname rew : String) (users : List User)
    (usr : User)
    (hu : users.find? (fun w => w.username == uname) = some usr) :
    (addTitleToUser uname rew users).find? (fun w => w.username == uname)
      = some (withTitles usr (setAdd usr.unlockedTitles rew)) := by
  unfold addTitleToUser
  rw [find?_replaceFirst (fun w => w.username == uname)
    (fun w => { w with unlockedTitles := setAdd w.unlockedTitles rew })
    (fun x => rfl) users, hu]
  rfl

theorem find?_distribute : ∀ (ucs : List UserChallenge) (users : List User)
    (uname : String) (usr : User),
    (∀ e ∈ ucs, e.username = uname) →
    users.find? (fun w => w.username == uname) = some usr →
    (distributeRewardsIfChallengeComplete ucs users).find?
        (fun w => w.username == uname)
      = some (withTitles usr (titlesAfter ucs usr.unlockedTitles))
  | [], users, uname, usr, _, hu => hu
  | e :: rest, users, uname, usr, hall, hu => by
    have he_name : e.username = uname := hall e (List.mem_cons_self _ _)
    unfold distributeRewardsIfChallengeComplete
    rw [List.foldl_cons]
    by_cases hc : e.progress.length = e.challenge.actionAmount
    · rw [if_pos hc, he_name]
      rw [show titlesAfter (e :: rest) usr.unlockedTitles
          = titlesAfter rest (setAdd usr.unlockedTitles e.challenge.reward) from by
        unfold titlesAfter
        rw [List.foldl_cons, if_pos hc]]
      exact find?_distribute rest _ uname _
        (fun x hx => hall x (List.mem_cons_of_mem _ hx))
        (find?_addTitleToUser uname e.challenge.reward users usr hu)
    · rw [if_neg hc]
      rw [show titlesAfter (e :: rest) usr.unlockedTitles
          = titlesAfter rest usr.unlockedTitles from by
        unfold titlesAfter
        rw [List.foldl_cons, if_neg hc]]
      exact find?_distribute rest users uname usr
        (fun x hx => hall x (List.mem_cons_of_mem _ hx)) hu

/-- C7: after a successful increment run, the reward of each returned user
challenge is in the user's unlocked titles if and only if it was already
there or the challenge's progress length equals its action amount exactly —
a count strictly below the target unlocks nothing, and the add is a set-add
(the titles stay duplicate-free). -/
theorem challenge_reward_C7 (username ctype : String) (now : Int)
    (s : ChallengeState) (usr : User) (lst : List UserChallenge)
    (hu : s.users.find? (fun w => w.username == username) = some usr)
    (hnd : (s.userChallenges.map (fun x => x._id)).Nodup)
    (hfresh : ∀ d ∈ s.userChallenges, d._id < s.nextUcId)
    (hT : usr.unlockedTitles.Nodup)
    (hlst : (fetchAndIncrementChallengesByUserAndType username ctype now s).1
      = .ok lst) :
    ∃ usr2,
      ((fetchAndIncrementChallengesByUserAndType username ctype now
          s).2.users).find? (fun w => w.username == username) = some usr2 ∧
      usr2.unlockedTitles.Nodup ∧
      ∀ r, r ∈ usr2.unlockedTitles ↔
        (r ∈ usr.unlockedTitles ∨ ∃ e ∈ lst,
          e.progress.length = e.challenge.actionAmount ∧
          e.challenge.reward = r) := by
  have hok := fetchAndIncrement_ok username ctype now s usr hu hnd hfresh
  rw [hok] at hlst
  injection hlst with h1
  subst h1
  refine ⟨withTitles usr
    (titlesAfter (userChallengesToUpdate username ctype now s)
      usr.unlockedTitles), ?_, ?_, ?_⟩
  · rw [fetchAndIncrement_users username ctype now s usr hu]
    exact find?_distribute (userChallengesToUpdate username ctype now s)
      s.users username usr
      (fun e he => toUpdate_username username ctype now s e he) hu
  · exact nodup_titlesAfter _ _ hT
  · intro r
    exact mem_titlesAfter (userChallengesToUpdate username ctype now s)
      usr.unlockedTitles r

/-- A challenge whose `hoursToComplete` is set to 0, with one stale progress
entry, for the C6 counterexample. -/
def chZero : Challenge :=
  { _id := 3, challengeType := "vote", actionAmount := 5, reward := "z",
    hoursToComplete := some 0 }

def ucZero : UserChallenge :=
  { _id := 20, username := "u", challenge := chZero, progress := [10] }

def sZero : ChallengeState :=
  { users := [uChal], userChallenges := [ucZero], challenges := [chZero],
    nextUcId := 21 }

/-- Counterexample to C6 as stated: `hoursToComplete = 0` is a set value, and
the claimed cutoff `now - 0` hours would remove the stale entry at time 10,
leaving `[100]`; but the code tests the field with JavaScript truthiness, so
it performs no pruning at all and persists `[10, 100]`. -/
theorem challenge_prune_C6_cex :
    ucZero.challenge.hoursToComplete = some 0 ∧
    ucZero.progress.length < ucZero.challenge.actionAmount ∧
    findUc 20 ((fetchAndIncrementChallengesByUserAndType "u" "vote" 100
        sZero).2.userChallenges)
      = some (withProgress ucZero [10, 100]) ∧
    ucZero.progress.filter
        (fun p => (100 : Int) - (0 : Int) * (1000 * 60 * 60) ≤ p) ++ [100]
      = ([100] : List Int) ∧
    ([10, 100] : List Int) ≠ ([100] : List Int) := by
  decide

/-- An untimed challenge completed by a single action, for the C7 witness. -/
def chEasy : Challenge :=
  { _id := 2, challengeType := "ask", actionAmount := 1, reward := "Title1",
    hoursToComplete := none }

def sEasy : ChallengeState :=
  { users := [uChal], userChallenges := [], challenges := [chEasy],
    nextUcId := 0 }

def ucEasyDone : UserChallenge :=
  { _id := 0, username := "u", challenge := chEasy, progress := [50] }

/-- Witness for C7: the bootstrapped one-action challenge completes on its
first increment and the reward is unlocked. -/
theorem challenge_reward_C7_witness :
    (sEasy.users.find? (fun w => w.username == "u") = some uChal ∧
      (sEasy.userChallenges.map (fun x => x._id)).Nodup ∧
      (∀ d ∈ sEasy.userChallenges, d._id < sEasy.nextUcId) ∧
      uChal.unlockedTitles.Nodup ∧
      (fetchAndIncrementChallengesByUserAndType "u" "ask" 50 sEasy).1
        = .ok [ucEasyDone]) ∧
    (∃ usr2,
      ((fetchAndIncrementChallengesByUserAndType "u" "ask" 50
          sEasy).2.users).find? (fun w => w.username == "u") = some usr2 ∧
      usr2.unlockedTitles.Nodup ∧
      ∀ r, r ∈ usr2.unlockedTitles ↔
        (r ∈ uChal.unlockedTitles ∨ ∃ e ∈ [ucEasyDone],
          e.progress.length = e.challenge.actionAmount ∧
          e.challenge.reward = r)) :=
  ⟨⟨by decide, by decide, by decide, by decide, by decide⟩,
    challenge_reward_C7 "u" "ask" 50 sEasy uChal [ucEasyDone] (by decide)
      (by decide) (by decide) (by decide) (by decide)⟩

/-! ## Notification fan-out (`usersToNotify`, `notifyUsers`) -/

/-- The object kinds a community can own. -/
inductive CommunityObjectType where
  | Question
  | Poll
  | Article
deriving DecidableEq, Repr

/-- A community document (reference fields hold object ids). -/
structure CommunityDoc where
  _id : String
  members : List String
  questions : List String
  polls : List String
  articles : List String
deriving DecidableEq, Repr

/-- The collections read and written by the notification fan-out. -/
structure NotifState where
  questions : List Question
  answers : List Answer
  communities : List CommunityDoc
  polls : List PollDoc
  pollOptions : List PollOptionDoc
  users : List User
  notifications : List SavedNotification
  nextNotifId : Nat
deriving DecidableEq, Repr

/-- The poll collections of a notification state, for option population. -/
def pollViewOf (s : NotifState) : PollState :=
  { polls := s.polls, pollOptions := s.pollOptions }

/-- Answer resolver: question asker plus subscribers (a plain list
concatenation, not a set union). -/
def usersToNotifyOnNewAnswer (qid : String) (s : NotifState) :
    Except String (List String) :=
  match s.questions.find? (fun q => q._id == qid) with
  | none => .error "Error retrieving users to notify"
  | some q => .ok (q.askedBy :: q.subscribers)

/-- Comment/Upvote resolver: the question asker only. -/
def questionAskerToNotify (qid : String) (s : NotifState) :
    Except String (List String) :=
  match s.questions.find? (fun q => q._id == qid) with
  | none => .error "Error retrieving users to notify"
  | some q => .ok [q.askedBy]

/-- AnswerComment resolver: the answer author only. -/
def userToNotifyOnAnswerComment (aid : String) (s : NotifState) :
    Except String (List String) :=
  match s.answers.find? (fun a => a._id == aid) with
  | none => .error "Error retrieving users to notify"
  | some a => .ok [a.ansBy]

/-- `fetchCommunityByObjectId`: the first community owning the object. -/
def fetchCommunityByObjectId (oid : String) (t : CommunityObjectType)
    (s : NotifState) : Except String CommunityDoc :=
  let c := match t with
    | .Question => s.communities.find? (fun c => c.questions.contains oid)
    | .Poll => s.communities.find? (fun c => c.polls.contains oid)
    | .Article => s.communities.find? (fun c => c.articles.contains oid)
  match c with
  | none => .error "Error retrieving community by object id"
  | some c2 => .ok c2

/-- PollClosed resolver: the poll creator plus every voter of any option. -/
def usersToNotifyPollClosed (pid : String) (s : NotifState) :
    Except String (List String) :=
  match s.polls.find? (fun p => p._id == pid) with
  | none => .error "Error retrieving users to notify"
  | some p =>
    .ok (p.createdBy ::
      ((populateOptions (pollViewOf s) p).map (fun o => o.usersVoted)).flatten)

/-- NewReward resolver: the single user with the given id. -/
def userToNotifyForReward (uid : String) (s : NotifState) :
    Except String (List String) :=
  match s.users.find? (fun w => w._id == uid) with
  | none => .error "Error retrieving user to notify"
  | some w => .ok [w.username]

/-- `usersToNotify`: dispatch on the notification type. -/
def usersToNotify (oid : String) (t : NotificationType) (s : NotifState) :
    Except String (List String) :=
  match t with
  | .Answer => usersToNotifyOnNewAnswer oid s
  | .Comment => questionAskerToNotify oid s
  | .AnswerComment => userToNotifyOnAnswerComment oid s
  | .Upvote => questionAskerToNotify oid s
  | .NewQuestion => (fetchCommunityByObjectId oid .Question s).map (fun c => c.members)
  | .NewPoll => (fetchCommunityByObjectId oid .Poll s).map (fun c => c.members)
  | .PollClosed => usersToNotifyPollClosed oid s
  | .NewArticle => (fetchCommunityByObjectId oid .Article s).map (fun c => c.members)
  | .ArticleUpdate => (fetchCommunityByObjectId oid .Article s).map (fun c => c.members)
  | .NewReward => userToNotifyForReward oid s

/-- The notification records created by a fan-out: one per recipient entry,
identical content, sequential fresh ids. -/
def mkSavedNotifs (n : Notification) (startId count : Nat) :
    List SavedNotification :=
  (List.range count).map
    (fun i => { _id := startId + i, notificationType := n.notificationType,
                isRead := n.isRead })

/-- `addNotificationToUser`: look the user up; a blocked notification type
returns the user untouched (the record stays orphaned); otherwise the record
id is prepended to the inbox (`$push` with `$position: 0`).  The Bool is
false exactly when the user was not found (the error path). -/
def addNotificationToUser (username : String) (rec : SavedNotification)
    (users : List User) : Bool × List User :=
  match users.find? (fun w => w.username == username) with
  | none => (false, users)
  | some w =>
    if w.blockedNotifications.contains rec.notificationType then (true, users)
    else
      (true, replaceFirst (fun v => v.username == username)
        (fun v => { v with notifications := rec._id :: v.notifications }) users)

/-- All per-recipient inbox attachments, attempted unconditionally (the code
awaits `Promise.all`, so every attachment runs even if one fails); the Bool
records whether every attachment succeeded. -/
def fanoutUsers (names : List String) (recs : List SavedNotification)
    (users : List User) : Bool × List User :=
  (names.zip recs).foldl
    (fun acc p =>
      ((acc.1 && (addNotificationToUser p.1 p.2 acc.2).1 : Bool),
        (addNotificationToUser p.1 p.2 acc.2).2))
    (true, users)

/-- The notification state after the record creations and attachment
attempts of a fan-out. -/
def notifStateAfter (s : NotifState) (recs : List SavedNotification)
    (count : Nat) (users2 : List User) : NotifState :=
  { s with notifications := s.notifications ++ recs,
           nextNotifId := s.nextNotifId + count,
           users := users2 }

/-- `notifyUsers(oid, notification)`: falsy-id guard, recipient resolution
(failure or an empty recipient set aborts with an error before any write),
then one record per recipient entry and one attachment attempt each; every
failure surfaces as the single catch-all error message, with partial writes
kept. -/
def notifyUsers (oid : Option String) (n : Notification) (s : NotifState) :
    Except String (List String) × NotifState :=
  match oid with
  | none => (.error "Error when adding notifications to users", s)
  | some oidv =>
    if oidv == "" then (.error "Error when adding notifications to users", s)
    else
      match usersToNotify oidv n.notificationType s with
      | .error _ => (.error "Error when adding notifications to users", s)
      | .ok names =>
        if names.length == 0 then
          (.error "Error when adding notifications to users", s)
        else
          let recs := mkSavedNotifs n s.nextNotifId names.length
          let outcome := fanoutUsers names recs s.users
          let s2 := notifStateAfter s recs names.length outcome.2
          if outcome.1 then (.ok names, s2)
          else (.error "Error when adding notifications to users", s2)

theorem notifyUsers_ok_inv (oidv : String) (n : Notification) (s : NotifState)
    (names : List String) (s2 : NotifState)
    (hok : notifyUsers (some oidv) n s = (.ok names, s2)) :
    usersToNotify oidv n.notificationType s = .ok names ∧
    s2 = notifStateAfter s (mkSavedNotifs n s.nextNotifId names.length)
      names.length
      (fanoutUsers names (mkSavedNotifs n s.nextNotifId names.length) s.users).2 := by
  simp only [notifyUsers] at hok
  by_cases he : (oidv == "") = true
  · rw [if_pos he] at hok
    simp at hok
  · rw [if_neg he] at hok
    rcases hres : usersToNotify oidv n.notificationType s with msg | names0
    · rw [hres] at hok
      simp at hok
    · rw [hres] at hok
      dsimp only at hok
      by_cases hlen : (names0.length == 0) = true
      · rw [if_pos hlen] at hok
        simp at hok
      · rw [if_neg hlen] at hok
        by_cases hout : (fanoutUsers names0
            (mkSavedNotifs n s.nextNotifId names0.length) s.users).1 = true
        · rw [if_pos hout] at hok
          injection hok with h1 h2
          injection h1 with h3
          subst h3
          subst h2
          exact ⟨rfl, rfl⟩
        · rw [if_neg hout] at hok
          simp at hok

theorem mem_mkSavedNotifs (n : Notification) (startId count : Nat)
    (r : SavedNotification) (hr : r ∈ mkSavedNotifs n startId count) :
    r.notificationType = n.notificationType := by
  unfold mkSavedNotifs at hr
  rcases List.mem_map.1 hr with ⟨i, -, rfl⟩
  rfl

theorem mkSavedNotifs_ids_nodup (n : Notification) (startId count : Nat) :
    ((mkSavedNotifs n startId count).map (fun r => r._id)).Nodup := by
  have h : (mkSavedNotifs n startId count).map (fun r => r._id)
      = (List.range count).map (fun i => startId + i) := by
    unfold mkSavedNotifs
    rw [List.map_map]
    rfl
  rw [h]
  exact List.Nodup.map (fun a b hab => by omega) (List.nodup_range _)

theorem addNotificationToUser_none (username : String) (rec : SavedNotification)
    (users : List User)
    (h : users.find? (fun w => w.username == username) = none) :
    addNotificationToUser username rec users = (false, users) := by
  unfold addNotificationToUser
  rw [h]

theorem addNotificationToUser_blocked (username : String)
    (rec : SavedNotification) (users : List User) (w : User)
    (h : users.find? (fun v => v.username == username) = some w)
    (hb : w.blockedNotifications.contains rec.notificationType = true) :
    addNotificationToUser username rec users = (true, users) := by
  unfold addNotificationToUser
  rw [h]
  dsimp only
  rw [if_pos hb]

theorem addNotificationToUser_push (username : String)
    (rec : SavedNotification) (users : List User) (w : User)
    (h : users.find? (fun v => v.username == username) = some w)
    (hb : w.blockedNotifications.contains rec.notificationType = false) :
    addNotificationToUser username rec users
      = (true, replaceFirst (fun v => v.username == username)
          (fun v => { v with notifications := rec._id :: v.notifications })
          users) := by
  unfold addNotificationToUser
  rw [h]
  dsimp only
  rw [if_neg (by rw [hb]; exact Bool.false_ne_true)]

theorem fanout_blocked_aux (u : String) (usr : User) (t : NotificationType)
    (hblk : usr.blockedNotifications.contains t = true) :
    ∀ (pairs : List (String × SavedNotification)) (b : Bool) (users : List User),
    (∀ p ∈ pairs, p.2.notificationType = t) →
    users.find? (fun w => w.username == u) = some usr →
    ((pairs.foldl
      (fun acc p =>
        ((acc.1 && (addNotificationToUser p.1 p.2 acc.2).1 : Bool),
          (addNotificationToUser p.1 p.2 acc.2).2))
      (b, users)).2).find? (fun w => w.username == u) = some usr
  | [], _, _, _, hu => hu
  | p :: rest, b, users, hall, hu => by
    rw [List.foldl_cons]
    apply fanout_blocked_aux u usr t hblk rest _ _
      (fun x hx => hall x (List.mem_cons_of_mem _ hx))
    rcases p with ⟨w, rec⟩
    have hrec : rec.notificationType = t := hall (w, rec) (List.mem_cons_self _ _)
    show ((addNotificationToUser w rec users).2).find?
      (fun v => v.username == u) = some usr
    rcases hw : users.find? (fun v => v.username == w) with _ | wdoc
    · rw [addNotificationToUser_none w rec users hw]
      exact hu
    · by_cases hbw : wdoc.blockedNotifications.contains rec.notificationType = true
      · rw [addNotificationToUser_blocked w rec users wdoc hw hbw]
        exact hu
      · by_cases hwu : w = u
        · subst hwu
          rw [hu] at hw
          injection hw with h2
          subst h2
          rw [hrec] at hbw
          exact absurd hblk hbw
        · rw [addNotificationToUser_push w rec users wdoc hw
            (by revert hbw; cases wdoc.blockedNotifications.contains rec.notificationType <;> simp)]
          show List.find? (fun v => v.username == u)
            (replaceFirst (fun v => v.username == w)
              (fun v => { v with notifications := rec._id :: v.notifications })
              users) = some usr
          refine (@find?_replaceFirst_other User (fun v => v.username == w)
            (fun v => v.username == u)
            (fun v => { v with notifications := rec._id :: v.notifications })
            users (fun x hx => ?_) (fun x => rfl)).trans hu
          have hx2 : x.username = w := by simpa using hx
          show (x.username == u) = false
          rw [hx2]
          exact beq_false_of_ne hwu

/-- C2: a recipient who has blocked the notification type of a successful
fan-out still gets a Notification record created (the store grows by one
record per recipient entry, theirs included), their user document — in
particular their inbox sequence — is unchanged, and the returned username
list still contains them. -/
theorem blocked_recipient_C2 (oidv : String) (n : Notification) (s : NotifState)
    (names : List String) (s2 : NotifState) (u : String) (usr : User)
    (hok : notifyUsers (some oidv) n s = (.ok names, s2))
    (hmem : u ∈ names)
    (husr : s.users.find? (fun w => w.username == u) = some usr)
    (hblk : usr.blockedNotifications.contains n.notificationType = true) :
    s2.notifications
        = s.notifications ++ mkSavedNotifs n s.nextNotifId names.length ∧
    s2.users.find? (fun w => w.username == u) = some usr ∧
    u ∈ names := by
  obtain ⟨-, rfl⟩ := notifyUsers_ok_inv oidv n s names s2 hok
  refine ⟨rfl, ?_, hmem⟩
  show (fanoutUsers names (mkSavedNotifs n s.nextNotifId names.length)
    s.users).2.find? (fun w => w.username == u) = some usr
  unfold fanoutUsers
  refine fanout_blocked_aux u usr n.notificationType hblk _ _ _ ?_ husr
  intro p hp
  rcases p with ⟨w, rec⟩
  exact mem_mkSavedNotifs n s.nextNotifId names.length rec
    (List.of_mem_zip hp).2

/-- C1 (amended): for an Answer fan-out that succeeds, the resolved recipient
list is the asker followed by the subscribers (its set is {askedBy} ∪
subscribers); when the asker is not a subscriber and the subscribers are
duplicate-free, that list has no repeats, exactly one fresh Notification
record with a distinct id is created per recipient, and the full recipient
list is returned. -/
theorem answer_fanout_C1 (oidv : String) (n : Notification) (s : NotifState)
    (q : Question) (names : List String) (s2 : NotifState)
    (htype : n.notificationType = .Answer)
    (hq : s.questions.find? (fun q2 => q2._id == oidv) = some q)
    (hsub : q.askedBy ∉ q.subscribers) (hnodup : q.subscribers.Nodup)
    (hok : notifyUsers (some oidv) n s = (.ok names, s2)) :
    names = q.askedBy :: q.subscribers ∧
    names.Nodup ∧
    s2.notifications
        = s.notifications ++ mkSavedNotifs n s.nextNotifId names.length ∧
    ((mkSavedNotifs n s.nextNotifId names.length).map (fun r => r._id)).Nodup := by
  obtain ⟨hres, rfl⟩ := notifyUsers_ok_inv oidv n s names s2 hok
  rw [htype] at hres
  unfold usersToNotify usersToNotifyOnNewAnswer at hres
  rw [hq] at hres
  injection hres with h1
  refine ⟨h1.symm, ?_, rfl, mkSavedNotifs_ids_nodup n s.nextNotifId names.length⟩
  rw [← h1]
  exact List.nodup_cons.2 ⟨hsub, hnodup⟩

/-- A question whose asker is also a subscriber, and the matching user. -/
def qDup : Question :=
  { _id := "q1", askedBy := "alice", askDateTime := 0, answers := [],
    views := [], upVotes := [], downVotes := [], subscribers := ["alice"] }

def aliceU : User :=
  { _id := "u1", username := "alice", notifications := [],
    blockedNotifications := [], unlockedTitles := [] }

def nAns : Notification := { notificationType := .Answer, isRead := false }

def sDup : NotifState :=
  { questions := [qDup], answers := [], communities := [], polls := [],
    pollOptions := [], users := [aliceU], notifications := [],
    nextNotifId := 0 }

/-- Counterexample to C1 as stated: when the asker is also a subscriber, the
Answer fan-out resolves them twice, creates two Notification records and
prepends two entries to their inbox — the recipient set {alice} receives more
than one notification. -/
theorem answer_fanout_C1_cex :
    (notifyUsers (some "q1") nAns sDup).1 = .ok ["alice", "alice"] ∧
    ((notifyUsers (some "q1") nAns sDup).2).notifications.length = 2 ∧
    (((notifyUsers (some "q1") nAns sDup).2).users.find?
      (fun w => w.username == "alice")).map (fun w => w.notifications.length)
      = some 2 ∧
    (["alice", "alice"] : List String).dedup = ["alice"] := by
  decide

def bobU : User :=
  { _id := "u2", username := "bob", notifications := [],
    blockedNotifications := [], unlockedTitles := [] }

def carolU : User :=
  { _id := "u3", username := "carol", notifications := [],
    blockedNotifications := [], unlockedTitles := [] }

def qAns3 : Question :=
  { _id := "q2", askedBy := "alice", askDateTime := 0, answers := [],
    views := [], upVotes := [], downVotes := [], subscribers := ["bob", "carol"] }

def sAns3 : NotifState :=
  { questions := [qAns3], answers := [], communities := [], polls := [],
    pollOptions := [], users := [aliceU, bobU, carolU], notifications := [],
    nextNotifId := 0 }

/-- Witness for C1 (amended) at the specification example: asker alice,
subscribers bob and carol. -/
theorem answer_fanout_C1_witness :
    (nAns.notificationType = NotificationType.Answer ∧
      sAns3.questions.find? (fun q2 => q2._id == "q2") = some qAns3 ∧
      qAns3.askedBy ∉ qAns3.subscribers ∧ qAns3.subscribers.Nodup ∧
      notifyUsers (some "q2") nAns sAns3
        = (.ok ["alice", "bob", "carol"],
            (notifyUsers (some "q2") nAns sAns3).2)) ∧
    ((["alice", "bob", "carol"] : List String)
        = qAns3.askedBy :: qAns3.subscribers ∧
      (["alice", "bob", "carol"] : List String).Nodup ∧
      ((notifyUsers (some "q2") nAns sAns3).2).notifications
        = sAns3.notifications ++ mkSavedNotifs nAns sAns3.nextNotifId
            (["alice", "bob", "carol"] : List String).length ∧
      ((mkSavedNotifs nAns sAns3.nextNotifId
        (["alice", "bob", "carol"] : List String).length).map
          (fun r => r._id)).Nodup) :=
  ⟨⟨rfl, by decide, by decide, by decide, by decide⟩,
    answer_fanout_C1 "q2" nAns sAns3 qAns3 ["alice", "bob", "carol"]
      ((notifyUsers (some "q2") nAns sAns3).2) rfl (by decide) (by decide)
      (by decide) (by decide)⟩

def bobB : User :=
  { _id := "u2", username := "bob", notifications := [7],
    blockedNotifications := [.Comment], unlockedTitles := [] }

def qAsk : Question :=
  { _id := "q3", askedBy := "bob", askDateTime := 0, answers := [],
    views := [], upVotes := [], downVotes := [], subscribers := [] }

def nCom : Notification := { notificationType := .Comment, isRead := false }

def sBlk : NotifState :=
  { questions := [qAsk], answers := [], communities := [], polls := [],
    pollOptions := [], users := [bobB], notifications := [], nextNotifId := 5 }

/-- Witness for C2: bob has blocked Comment notifications; the Comment
fan-out still creates a record, leaves his document (and inbox) unchanged and
reports him notified. -/
theorem blocked_recipient_C2_witness :
    (notifyUsers (some "q3") nCom sBlk
        = (.ok ["bob"], (notifyUsers (some "q3") nCom sBlk).2) ∧
      "bob" ∈ (["bob"] : List String) ∧
      sBlk.users.find? (fun w => w.username == "bob") = some bobB ∧
      bobB.blockedNotifications.contains nCom.notificationType = true) ∧
    (((notifyUsers (some "q3") nCom sBlk).2).notifications
        = sBlk.notifications ++ mkSavedNotifs nCom sBlk.nextNotifId
            (["bob"] : List String).length ∧
      ((notifyUsers (some "q3") nCom sBlk).2).users.find?
        (fun w => w.username == "bob") = some bobB ∧
      "bob" ∈ (["bob"] : List String)) :=
  ⟨⟨by decide, by decide, by decide, by decide⟩,
    blocked_recipient_C2 "q3" nCom sBlk ["bob"]
      ((notifyUsers (some "q3") nCom sBlk).2) "bob" bobB (by decide)
      (by decide) (by decide) (by decide)⟩

end App
